import Mathlib

/-!
Verification of the clustering-and-ranking engine of the `yesterday` news
pipeline: the text normalizer/stemmer/vectorizer, the cosine-similarity
function, the incremental greedy clusterer, the cluster ranker and candidate
store, the manual-reorder contract, and the representative-article selector.

The definitions below are a shallow embedding of the TypeScript source:

* `src/lib/pipeline/cluster.ts` — normalizer, stemmer, vectorizer, cosine
  similarity, incremental clusterer, cluster run;
* `src/app/api/admin/rank/route.ts` — ranker and candidate snapshot;
* the candidate reorder route — reorder contract;
* the representative-article selector.

JavaScript `Map`s are modelled as association lists with the `Map` invariant
(no duplicate keys) made explicit where a proof needs it.  JavaScript numbers
are modelled exactly: every intermediate quantity in the pipeline is an
integer, a rational, or (for cosine similarity) a real number of the form
`d / Real.sqrt (p * q)` with natural `d p q`.  For executability the clusterer
compares squared cosines as rationals (`simQ` below); the bridge lemmas prove
this order-isomorphic to comparing the real cosines, which are nonnegative.
-/

namespace Yesterday

/-! ### Token vectors (JS `Map<string, number>` as association list) -/

/-- A term-frequency vector: association list from stemmed token to count. -/
abbrev TokenVector := List (String × Nat)

/-- `Map.get(k) ?? 0`: value of the first entry with key `k`, or `0`. -/
def tvGet (v : TokenVector) (k : String) : Nat :=
  match v.find? (fun p => p.1 = k) with
  | some p => p.2
  | none => 0

/-- `Map.set(k, n)`: replace the first entry with key `k`, else append. -/
def tvSet : TokenVector → String → Nat → TokenVector
  | [], k, n => [(k, n)]
  | p :: rest, k, n => if p.1 = k then (k, n) :: rest else p :: tvSet rest k n

/-- Keys of a token vector, in insertion order. -/
def tvKeys (v : TokenVector) : List String := v.map Prod.fst

/-- The JS `Map` invariant: no duplicate keys. -/
def NodupKeys (v : TokenVector) : Prop := (tvKeys v).Nodup

/-- A well-formed token vector: distinct keys and positive counts, as every
vector built by the pipeline satisfies. -/
def WFVec (v : TokenVector) : Prop :=
  NodupKeys v ∧ ∀ p ∈ v, 0 < p.2

/-- `addToVectorSum` from `cluster.ts`: fold the source entries into the
target with `target.set(token, (target.get(token) ?? 0) + value)`. -/
def addToVectorSum (target source : TokenVector) : TokenVector :=
  source.foldl (fun t p => tvSet t p.1 (tvGet t p.1 + p.2)) target

/-- Dot product as computed in `cosineSimilarity`: iterate over `a`'s
entries, looking each key up in `b` (missing keys count `0`). -/
def dotProd (a b : TokenVector) : Nat :=
  a.foldl (fun acc p => acc + p.2 * tvGet b p.1) 0

/-- Squared L2 norm as computed in `cosineSimilarity`. -/
def normSq (a : TokenVector) : Nat :=
  a.foldl (fun acc p => acc + p.2 * p.2) 0

/-! ### Text normalizer (`normalizeText` in `cluster.ts`) -/

/-- Characters the regex class `[a-z0-9]` accepts. -/
def isLowerDigit (c : Char) : Bool :=
  ('a' ≤ c && c ≤ 'z') || ('0' ≤ c && c ≤ '9')

/-- Whitespace for the purposes of the `\s` regex class. -/
def isSpaceChar (c : Char) : Bool :=
  c = ' ' || c = '\t' || c = '\n' || c = '\r'

def httpChars : List Char := ['h', 't', 't', 'p', ':', '/', '/']

def httpsChars : List Char := ['h', 't', 't', 'p', 's', ':', '/', '/']

/-- Is there a non-space character at offset `n`?  (`\S+` needs one char.) -/
def nonspaceAfter (l : List Char) (n : Nat) : Bool :=
  match (l.drop n).head? with
  | some c => !isSpaceChar c
  | none => false

/-- Does a match of `https?:\/\/\S+` start at the head of `l`? -/
def urlStartsAt (l : List Char) : Bool :=
  (decide (l.take 7 = httpChars) && nonspaceAfter l 7) ||
    (decide (l.take 8 = httpsChars) && nonspaceAfter l 8)

/-- Global replacement of `https?:\/\/\S+` by a single space, as a one-pass
scanner.  The `Bool` state is "currently consuming a match": the scanner
emits one space at the start of a match and skips until whitespace, which is
exactly the greedy `\S+` semantics of the regex. -/
def stripUrlsGo : List Char → Bool → List Char
  | [], _ => []
  | c :: rest, true =>
      if isSpaceChar c then c :: stripUrlsGo rest false else stripUrlsGo rest true
  | c :: rest, false =>
      if urlStartsAt (c :: rest) then ' ' :: stripUrlsGo rest true
      else c :: stripUrlsGo rest false

def stripUrls (l : List Char) : List Char := stripUrlsGo l false

/-- `.replace(/[^a-z0-9\s]/g, " ")` on one character. -/
def sanitizeChar (c : Char) : Char :=
  if isLowerDigit c || isSpaceChar c then c else ' '

/-- `.replace(/\s+/g, " ")`: the `Bool` state is "previous char was part of a
whitespace run"; each run is emitted as a single `' '`. -/
def collapseGo : List Char → Bool → List Char
  | [], _ => []
  | c :: rest, prev =>
      if isSpaceChar c then
        if prev then collapseGo rest true else ' ' :: collapseGo rest true
      else c :: collapseGo rest false

def collapseWs (l : List Char) : List Char := collapseGo l false

/-- `.trim()`.  After `collapseWs` the only whitespace left is `' '`. -/
def trimSpaces (l : List Char) : List Char :=
  ((l.dropWhile (fun c => c = ' ')).reverse.dropWhile (fun c => c = ' ')).reverse

/-- `normalizeText` from `cluster.ts`: concatenate title and snippet,
lowercase, strip URLs, keep only `[a-z0-9\s]`, collapse whitespace, trim. -/
def normalizeText (title : String) (snippet : Option String) : List Char :=
  trimSpaces (collapseWs
    (((stripUrls ((title ++ " " ++ snippet.getD "").data.map Char.toLower)).map
      sanitizeChar)))

/-! ### Stemmer and vectorizer (`stemToken`, `toVector` in `cluster.ts`) -/

def STOP_WORDS : List String :=
  ["a", "an", "and", "are", "as", "at", "be", "by", "for", "from", "has",
   "he", "in", "is", "it", "its", "of", "on", "that", "the", "to", "was",
   "were", "will", "with"]

/-- `stemToken` from `cluster.ts`: crude suffix stripping. -/
def stemToken (t : List Char) : List Char :=
  if ['\'', 's'].isSuffixOf t then t.take (t.length - 2)
  else if t.length > 6 && ['i', 'n', 'g'].isSuffixOf t then t.take (t.length - 3)
  else if t.length > 5 && ['e', 'd'].isSuffixOf t then t.take (t.length - 2)
  else if t.length > 5 && ['e', 's'].isSuffixOf t then t.take (t.length - 2)
  else if t.length > 4 && ['s'].isSuffixOf t then t.take (t.length - 1)
  else t

/-- Modelled from the spec: the stemmer with the possessive branch removed —
the spec's claim C10 compares the source stemmer against "a stemmer lacking
that branch". -/
def stemTokenNoPoss (t : List Char) : List Char :=
  if t.length > 6 && ['i', 'n', 'g'].isSuffixOf t then t.take (t.length - 3)
  else if t.length > 5 && ['e', 'd'].isSuffixOf t then t.take (t.length - 2)
  else if t.length > 5 && ['e', 's'].isSuffixOf t then t.take (t.length - 2)
  else if t.length > 4 && ['s'].isSuffixOf t then t.take (t.length - 1)
  else t

/-- `text.split(" ")`. -/
def splitGo : List Char → List Char → List (List Char)
  | [], acc => [acc.reverse]
  | c :: rest, acc =>
      if c = ' ' then acc.reverse :: splitGo rest [] else splitGo rest (c :: acc)

def splitTokens (l : List Char) : List (List Char) := splitGo l []

/-- The token list of `toVector`: split, trim, stem, filter short tokens and
stop words. -/
def tokensOf (stem : List Char → List Char) (l : List Char) : List String :=
  (((splitTokens l).map (fun t => stem (trimSpaces t))).filter
    (fun t => 2 ≤ t.length && !STOP_WORDS.contains (String.mk t))).map String.mk

/-- Frequency counting of `toVector`. -/
def countTokens (tokens : List String) : TokenVector :=
  tokens.foldl (fun v t => tvSet v t (tvGet v t + 1)) []

/-- `toVector` from `cluster.ts`. -/
def toVector (l : List Char) : TokenVector := countTokens (tokensOf stemToken l)

/-- Modelled from the spec: the vectorizer composed with the stemmer that
lacks the possessive branch (the comparison target of claim C10). -/
def toVectorNoPoss (l : List Char) : TokenVector :=
  countTokens (tokensOf stemTokenNoPoss l)


/-! ### Character-level facts about the normalizer -/

theorem mem_collapseGo {c : Char} :
    ∀ (l : List Char) (b : Bool), c ∈ collapseGo l b →
      c = ' ' ∨ (c ∈ l ∧ isSpaceChar c = false) := by
  intro l
  induction l with
  | nil => intro b h; simp [collapseGo] at h
  | cons d rest ih =>
      intro b h
      by_cases hd : isSpaceChar d
      · simp [collapseGo, hd] at h
        cases b with
        | true =>
            simp at h
            rcases ih true h with h' | h'
            · exact Or.inl h'
            · exact Or.inr ⟨List.mem_cons_of_mem _ h'.1, h'.2⟩
        | false =>
            simp at h
            rcases h with h | h
            · exact Or.inl h
            · rcases ih true h with h' | h'
              · exact Or.inl h'
              · exact Or.inr ⟨List.mem_cons_of_mem _ h'.1, h'.2⟩
      · simp [collapseGo, hd] at h
        rcases h with h | h
        · subst h
          exact Or.inr ⟨List.mem_cons_self _ _, by simpa using hd⟩
        · rcases ih false h with h' | h'
          · exact Or.inl h'
          · exact Or.inr ⟨List.mem_cons_of_mem _ h'.1, h'.2⟩

theorem mem_dropWhileSpace {c : Char} {l : List Char} :
    c ∈ l.dropWhile (fun c => c = ' ') → c ∈ l := by
  induction l with
  | nil => simp
  | cons d rest ih =>
      intro h
      by_cases hd : d = ' '
      · simp [List.dropWhile, hd] at h
        exact List.mem_cons_of_mem _ (ih (by simpa [List.dropWhile] using h))
      · simpa [List.dropWhile, hd] using h

theorem mem_trimSpaces {c : Char} {l : List Char} (h : c ∈ trimSpaces l) : c ∈ l := by
  unfold trimSpaces at h
  rw [List.mem_reverse] at h
  have h1 := mem_dropWhileSpace h
  rw [List.mem_reverse] at h1
  exact mem_dropWhileSpace h1

theorem mem_sanitized {c : Char} {l : List Char} (h : c ∈ l.map sanitizeChar) :
    isLowerDigit c = true ∨ isSpaceChar c = true := by
  rcases List.mem_map.mp h with ⟨d, _, rfl⟩
  by_cases h1 : isLowerDigit d = true
  · exact Or.inl (by simp [sanitizeChar, h1])
  · by_cases h2 : isSpaceChar d = true
    · exact Or.inr (by simp [sanitizeChar, h2])
    · right
      simp [sanitizeChar, h1, h2]
      decide

/-- Every character of the normalized text is a lowercase letter, a digit, or
a single space. -/
theorem normalizeText_chars {c : Char} {title : String} {snippet : Option String}
    (h : c ∈ normalizeText title snippet) : isLowerDigit c = true ∨ c = ' ' := by
  unfold normalizeText at h
  have h1 := mem_trimSpaces h
  rcases mem_collapseGo _ _ h1 with h2 | h2
  · exact Or.inr h2
  · rcases mem_sanitized h2.1 with h3 | h3
    · exact Or.inl h3
    · exact absurd h3 (by simp [h2.2])

theorem mem_splitGo {c : Char} {tok : List Char} :
    ∀ (l acc : List Char), tok ∈ splitGo l acc → c ∈ tok →
      (c ∈ l ∧ c ≠ ' ') ∨ c ∈ acc := by
  intro l
  induction l with
  | nil =>
      intro acc htok hc
      simp [splitGo] at htok
      subst htok
      exact Or.inr (List.mem_reverse.mp hc)
  | cons d rest ih =>
      intro acc htok hc
      by_cases hd : d = ' '
      · simp [splitGo, hd] at htok
        rcases htok with htok | htok
        · subst htok
          exact Or.inr (List.mem_reverse.mp hc)
        · rcases ih [] htok hc with h' | h'
          · exact Or.inl ⟨List.mem_cons_of_mem _ h'.1, h'.2⟩
          · simp at h'
      · simp [splitGo, hd] at htok
        rcases ih (d :: acc) htok hc with h' | h'
        · exact Or.inl ⟨List.mem_cons_of_mem _ h'.1, h'.2⟩
        · rcases List.mem_cons.mp h' with h'' | h''
          · subst h''
            exact Or.inl ⟨List.mem_cons_self _ _, hd⟩
          · exact Or.inr h''

/-- Tokens of the split contain no spaces and only characters of the text. -/
theorem mem_splitTokens {c : Char} {tok l : List Char}
    (htok : tok ∈ splitTokens l) (hc : c ∈ tok) : c ∈ l ∧ c ≠ ' ' := by
  rcases mem_splitGo l [] htok hc with h | h
  · exact h
  · simp at h

/-- On apostrophe-free tokens the two stemmers agree. -/
theorem stemToken_eq_noPoss {t : List Char} (h : '\'' ∉ t) :
    stemToken t = stemTokenNoPoss t := by
  have hposs : ¬(['\'', 's'].isSuffixOf t = true) := by
    intro hsuf
    have h2 : ['\'', 's'] <:+ t := by rwa [List.isSuffixOf_iff_suffix] at hsuf
    exact h (h2.subset (by simp))
  rw [stemToken, stemTokenNoPoss, if_neg hposs]

/--
**C10**: the possessive-stripping rule of the stemmer is unreachable in the
pipeline: every token produced by the normalizer consists only of lowercase
letters and digits (apostrophes are replaced by spaces before tokenization),
so no token passed to `stemToken` can end with `'s`, and the vectorizer
composed with a stemmer lacking that branch computes the same `TokenVector`
for every title/snippet input.
-/
theorem C10_possessive_branch_unreachable (title : String) (snippet : Option String) :
    (∀ tok ∈ splitTokens (normalizeText title snippet), ∀ c ∈ tok,
      isLowerDigit c = true) ∧
    toVector (normalizeText title snippet)
      = toVectorNoPoss (normalizeText title snippet) := by
  have htoks : ∀ tok ∈ splitTokens (normalizeText title snippet), ∀ c ∈ tok,
      isLowerDigit c = true := by
    intro tok htok c hc
    have h1 := mem_splitTokens htok hc
    rcases normalizeText_chars h1.1 with h2 | h2
    · exact h2
    · exact absurd h2 h1.2
  refine ⟨htoks, ?_⟩
  unfold toVector toVectorNoPoss
  congr 1
  unfold tokensOf
  congr 2
  apply List.map_congr_left
  intro tok htok
  apply stemToken_eq_noPoss
  intro hmem
  have h1 := mem_trimSpaces hmem
  have h2 := htoks tok htok _ h1
  simp [isLowerDigit] at h2

/-- Witness for C10 at a concrete input containing a possessive. -/
theorem C10_witness :
    toVector (normalizeText "John's dogs" (some "It's raining"))
      = toVectorNoPoss (normalizeText "John's dogs" (some "It's raining")) :=
  (C10_possessive_branch_unreachable "John's dogs" (some "It's raining")).2

/-! ### Algebra of token vectors -/

theorem foldl_add_eq_sum {α : Type} (f : α → Nat) (l : List α) (n : Nat) :
    l.foldl (fun acc p => acc + f p) n = n + (l.map f).sum := by
  induction l generalizing n with
  | nil => simp
  | cons p rest ih => simp [ih]; omega

theorem normSq_eq_map_sum (a : TokenVector) :
    normSq a = (a.map (fun p => p.2 * p.2)).sum := by
  simpa using foldl_add_eq_sum (fun p => p.2 * p.2) a 0

theorem dotProd_eq_map_sum (a b : TokenVector) :
    dotProd a b = (a.map (fun p => p.2 * tvGet b p.1)).sum := by
  simpa using foldl_add_eq_sum (fun p => p.2 * tvGet b p.1) a 0

/-- In a duplicate-free vector a lookup of an entry's key returns its value. -/
theorem tvGet_eq_of_mem {a : TokenVector} {p : String × Nat}
    (ha : NodupKeys a) (hp : p ∈ a) : tvGet a p.1 = p.2 := by
  induction a with
  | nil => simp at hp
  | cons q rest ih =>
      rcases List.mem_cons.mp hp with h | h
      · subst h
        simp [tvGet, List.find?]
      · have hne : q.1 ≠ p.1 := by
          intro he
          have : p.1 ∈ tvKeys rest := List.mem_map.mpr ⟨p, h, rfl⟩
          have := (List.nodup_cons.mp ha).1
          exact this (he ▸ List.mem_map.mpr ⟨p, h, rfl⟩)
        have ha' : NodupKeys rest := (List.nodup_cons.mp ha).2
        simpa [tvGet, List.find?, hne] using ih ha' h

theorem tvGet_eq_zero_of_not_mem {a : TokenVector} {k : String}
    (h : k ∉ tvKeys a) : tvGet a k = 0 := by
  induction a with
  | nil => simp [tvGet]
  | cons q rest ih =>
      have h1 : q.1 ≠ k := by
        intro he; exact h (he ▸ List.mem_cons_self _ _)
      have h2 : k ∉ tvKeys rest := fun hm => h (List.mem_cons_of_mem _ hm)
      simpa [tvGet, List.find?, h1] using ih h2

/-- The key set of a vector, as a `Finset`. -/
def keyFinset (v : TokenVector) : Finset String := (tvKeys v).toFinset

theorem tvGet_eq_zero_of_not_mem_keyFinset {a : TokenVector} {k : String}
    (h : k ∉ keyFinset a) : tvGet a k = 0 :=
  tvGet_eq_zero_of_not_mem (fun hm => h (List.mem_toFinset.mpr hm))

theorem map_entries_eq_map_keys {a : TokenVector} (g : String → Nat → Nat)
    (ha : NodupKeys a) :
    a.map (fun p => g p.1 p.2) = (tvKeys a).map (fun k => g k (tvGet a k)) := by
  unfold tvKeys
  rw [List.map_map]
  apply List.map_congr_left
  intro p hp
  simp [tvGet_eq_of_mem ha hp]

theorem sum_over_keys {a : TokenVector} (g : String → Nat → Nat) (ha : NodupKeys a) :
    (a.map (fun p => g p.1 p.2)).sum = ∑ k ∈ keyFinset a, g k (tvGet a k) := by
  rw [map_entries_eq_map_keys g ha, keyFinset]
  exact (List.sum_toFinset _ ha).symm

theorem normSq_eq_finset_sum {a : TokenVector} (ha : NodupKeys a) :
    normSq a = ∑ k ∈ keyFinset a, tvGet a k * tvGet a k := by
  rw [normSq_eq_map_sum]
  exact sum_over_keys (fun _ n => n * n) ha

theorem dotProd_eq_finset_sum {a : TokenVector} (b : TokenVector) (ha : NodupKeys a) :
    dotProd a b = ∑ k ∈ keyFinset a, tvGet a k * tvGet b k := by
  rw [dotProd_eq_map_sum]
  exact sum_over_keys (fun k n => n * tvGet b k) ha

/-- Extend a dot-product style sum to any superset of the key set. -/
theorem sum_tvGet_extend {a : TokenVector} (g : String → Nat) {S : Finset String}
    (hS : keyFinset a ⊆ S) :
    ∑ k ∈ keyFinset a, tvGet a k * g k = ∑ k ∈ S, tvGet a k * g k := by
  apply Finset.sum_subset hS
  intro k _ hk
  simp [tvGet_eq_zero_of_not_mem_keyFinset hk]

theorem dotProd_eq_sum_union {a b : TokenVector} (ha : NodupKeys a) :
    dotProd a b = ∑ k ∈ keyFinset a ∪ keyFinset b, tvGet a k * tvGet b k := by
  rw [dotProd_eq_finset_sum b ha]
  exact sum_tvGet_extend (fun k => tvGet b k) Finset.subset_union_left

theorem dotProd_comm {a b : TokenVector} (ha : NodupKeys a) (hb : NodupKeys b) :
    dotProd a b = dotProd b a := by
  rw [dotProd_eq_sum_union ha, dotProd_eq_sum_union hb, Finset.union_comm]
  apply Finset.sum_congr rfl
  intro k _
  ring

theorem dotProd_self {a : TokenVector} (ha : NodupKeys a) :
    dotProd a a = normSq a := by
  rw [dotProd_eq_finset_sum a ha, normSq_eq_finset_sum ha]

theorem normSq_eq_sum_union_left {a b : TokenVector} (ha : NodupKeys a) :
    normSq a = ∑ k ∈ keyFinset a ∪ keyFinset b, tvGet a k * tvGet a k := by
  rw [normSq_eq_finset_sum ha]
  exact sum_tvGet_extend (fun k => tvGet a k) Finset.subset_union_left

theorem normSq_eq_sum_union_right {a b : TokenVector} (hb : NodupKeys b) :
    normSq b = ∑ k ∈ keyFinset a ∪ keyFinset b, tvGet b k * tvGet b k := by
  rw [normSq_eq_finset_sum hb]
  exact sum_tvGet_extend (fun k => tvGet b k) Finset.subset_union_right

/-- Cauchy–Schwarz for the exact integer dot product and norms. -/
theorem dotProd_sq_le {a b : TokenVector} (ha : NodupKeys a) (hb : NodupKeys b) :
    dotProd a b * dotProd a b ≤ normSq a * normSq b := by
  rw [dotProd_eq_sum_union (b := b) ha, normSq_eq_sum_union_left (b := b) ha,
    normSq_eq_sum_union_right (a := a) hb]
  have h := Finset.sum_mul_sq_le_sq_mul_sq (keyFinset a ∪ keyFinset b)
    (fun k => (tvGet a k : ℤ)) (fun k => (tvGet b k : ℤ))
  have h' : ((∑ k ∈ keyFinset a ∪ keyFinset b, tvGet a k * tvGet b k : ℕ) : ℤ) ^ 2 ≤
      ((∑ k ∈ keyFinset a ∪ keyFinset b, tvGet a k * tvGet a k : ℕ) : ℤ) *
      ((∑ k ∈ keyFinset a ∪ keyFinset b, tvGet b k * tvGet b k : ℕ) : ℤ) := by
    push_cast
    calc ((∑ k ∈ keyFinset a ∪ keyFinset b, (tvGet a k : ℤ) * (tvGet b k : ℤ)) ^ 2)
        ≤ (∑ k ∈ keyFinset a ∪ keyFinset b, (tvGet a k : ℤ) ^ 2) *
          (∑ k ∈ keyFinset a ∪ keyFinset b, (tvGet b k : ℤ) ^ 2) := h
      _ = (∑ k ∈ keyFinset a ∪ keyFinset b, (tvGet a k : ℤ) * tvGet a k) *
          (∑ k ∈ keyFinset a ∪ keyFinset b, (tvGet b k : ℤ) * tvGet b k) := by
            simp [sq]
  have := h'
  rw [sq] at this
  exact_mod_cast this

theorem normSq_pos {a : TokenVector} (ha : WFVec a) (hne : a ≠ []) :
    0 < normSq a := by
  rcases a with _ | ⟨p, rest⟩
  · exact absurd rfl hne
  · rw [normSq_eq_map_sum]
    have hp : 0 < p.2 := ha.2 p (List.mem_cons_self _ _)
    have : 0 < p.2 * p.2 := Nat.mul_pos hp hp
    simp [List.sum_cons]
    omega

/-! ### Cosine similarity (`cosineSimilarity` in `cluster.ts`) -/

/-- `cosineSimilarity` from `cluster.ts`: `0` when either map is empty or
either norm is zero, else `dot / Math.sqrt(aNorm * bNorm)`. -/
noncomputable def cosineSimilarity (a b : TokenVector) : ℝ :=
  if a = [] ∨ b = [] then 0
  else if normSq a = 0 ∨ normSq b = 0 then 0
  else (dotProd a b : ℝ) / Real.sqrt ((normSq a : ℝ) * (normSq b : ℝ))

/-- The square of the cosine similarity, as an exact rational.  The clusterer
below compares these instead of the real cosines; since cosines here are
nonnegative, the comparison order is identical (`cosineSimilarity_eq_sqrt`). -/
def simQ (a b : TokenVector) : ℚ :=
  if a = [] ∨ b = [] then 0
  else if normSq a = 0 ∨ normSq b = 0 then 0
  else (dotProd a b : ℚ) ^ 2 / ((normSq a : ℚ) * (normSq b : ℚ))

theorem simQ_nonneg (a b : TokenVector) : 0 ≤ simQ a b := by
  unfold simQ
  split
  · exact le_refl 0
  · split
    · exact le_refl 0
    · positivity

theorem cosineSimilarity_eq_sqrt (a b : TokenVector) :
    cosineSimilarity a b = Real.sqrt ((simQ a b : ℚ)) := by
  unfold cosineSimilarity simQ
  split
  · simp
  · rename_i h1
    split
    · simp
    · rename_i h2
      have hn : (0:ℝ) < (normSq a : ℝ) * (normSq b : ℝ) := by
        have ha : 0 < normSq a := Nat.pos_of_ne_zero (fun h => h2 (Or.inl h))
        have hb : 0 < normSq b := Nat.pos_of_ne_zero (fun h => h2 (Or.inr h))
        positivity
      rw [show (((dotProd a b : ℚ) ^ 2 / ((normSq a : ℚ) * (normSq b : ℚ)) : ℚ) : ℝ)
            = ((dotProd a b : ℝ)) ^ 2 / ((normSq a : ℝ) * (normSq b : ℝ)) by push_cast; ring]
      rw [Real.sqrt_div' ((dotProd a b : ℝ) ^ 2) hn.le] -- may need different name
      rw [Real.sqrt_sq (by positivity : (0:ℝ) ≤ (dotProd a b : ℝ))]

theorem cosineSimilarity_nonneg (a b : TokenVector) : 0 ≤ cosineSimilarity a b := by
  rw [cosineSimilarity_eq_sqrt]; exact Real.sqrt_nonneg _

theorem cosineSimilarity_le_iff {a x y : TokenVector} :
    cosineSimilarity a x ≤ cosineSimilarity a y ↔ simQ a x ≤ simQ a y := by
  rw [cosineSimilarity_eq_sqrt, cosineSimilarity_eq_sqrt,
    Real.sqrt_le_sqrt_iff (by exact_mod_cast simQ_nonneg a y)]
  exact_mod_cast Iff.rfl

theorem cosineSimilarity_lt_iff {a x y : TokenVector} :
    cosineSimilarity a x < cosineSimilarity a y ↔ simQ a x < simQ a y := by
  constructor
  · intro h
    by_contra hle
    exact absurd (cosineSimilarity_le_iff.mpr (not_lt.mp hle)) (not_le.mpr h)
  · intro h
    by_contra hle
    exact absurd (cosineSimilarity_le_iff.mp (not_lt.mp hle)) (not_le.mpr h)

/-- The code's threshold test `similarity >= 0.32` in terms of `simQ`. -/
theorem cosineSimilarity_threshold_iff {a x : TokenVector} :
    (8:ℝ)/25 ≤ cosineSimilarity a x ↔ (64:ℚ)/625 ≤ simQ a x := by
  rw [cosineSimilarity_eq_sqrt]
  rw [show ((64:ℚ)/625 ≤ simQ a x) ↔ (((64:ℚ)/625 : ℚ) : ℝ) ≤ ((simQ a x : ℚ) : ℝ) by
    exact_mod_cast Iff.rfl]
  rw [Real.le_sqrt (by norm_num : (0:ℝ) ≤ 8/25) (by exact_mod_cast simQ_nonneg a x)]
  rw [show ((8:ℝ)/25) ^ 2 = (((64:ℚ)/625 : ℚ) : ℝ) by norm_num]

theorem cosineSimilarity_comm {a b : TokenVector} (ha : NodupKeys a)
    (hb : NodupKeys b) : cosineSimilarity a b = cosineSimilarity b a := by
  unfold cosineSimilarity
  by_cases h1 : a = [] ∨ b = []
  · rw [if_pos h1, if_pos (Or.symm h1)]
  · rw [if_neg h1, if_neg (fun h => h1 (Or.symm h))]
    by_cases h2 : normSq a = 0 ∨ normSq b = 0
    · rw [if_pos h2, if_pos (Or.symm h2)]
    · rw [if_neg h2, if_neg (fun h => h2 (Or.symm h))]
      rw [dotProd_comm ha hb, mul_comm]

theorem cosineSimilarity_zero {a b : TokenVector}
    (h : a = [] ∨ b = [] ∨ normSq a = 0 ∨ normSq b = 0) :
    cosineSimilarity a b = 0 := by
  unfold cosineSimilarity
  rcases h with h | h | h
  · rw [if_pos (Or.inl h)]
  · rw [if_pos (Or.inr h)]
  · by_cases h1 : a = [] ∨ b = []
    · rw [if_pos h1]
    · rw [if_neg h1, if_pos h]

theorem cosineSimilarity_self {a : TokenVector} (ha : WFVec a) (hne : a ≠ []) :
    cosineSimilarity a a = 1 := by
  have hpos : 0 < normSq a := normSq_pos ha hne
  unfold cosineSimilarity
  rw [if_neg (by simp [hne]), if_neg (by simp [Nat.pos_iff_ne_zero.mp hpos])]
  rw [dotProd_self ha.1]
  rw [Real.sqrt_mul_self (by positivity : (0:ℝ) ≤ (normSq a : ℝ))]
  exact div_self (by exact_mod_cast Nat.pos_iff_ne_zero.mp hpos)

/--
**C5**: the cosine similarity function is symmetric, returns exactly 0
whenever either vector is empty or either vector's norm is zero (no division
by zero), and returns exactly 1.0 for `similarity(a,a)` whenever `a` is
non-empty.  (Vectors are quantified over well-formed JS maps: distinct keys
for symmetry, and the positive-frequency invariant of `TokenVector` for the
self-similarity part.)
-/
theorem C5_similarity_symmetric_zero_self :
    (∀ a b : TokenVector, NodupKeys a → NodupKeys b →
      cosineSimilarity a b = cosineSimilarity b a) ∧
    (∀ a b : TokenVector, a = [] ∨ b = [] ∨ normSq a = 0 ∨ normSq b = 0 →
      cosineSimilarity a b = 0) ∧
    (∀ a : TokenVector, WFVec a → a ≠ [] → cosineSimilarity a a = 1) :=
  ⟨fun _ _ ha hb => cosineSimilarity_comm ha hb,
   fun _ _ h => cosineSimilarity_zero h,
   fun _ ha hne => cosineSimilarity_self ha hne⟩

/-- Witness for C5 at concrete vectors. -/
theorem C5_witness :
    cosineSimilarity [("ab", 1), ("cd", 2)] [("ef", 3)]
        = cosineSimilarity [("ef", 3)] [("ab", 1), ("cd", 2)] ∧
      cosineSimilarity [] [("ef", 3)] = 0 ∧
      cosineSimilarity [("ab", 1), ("cd", 2)] [("ab", 1), ("cd", 2)] = 1 :=
  ⟨C5_similarity_symmetric_zero_self.1 _ _ (by unfold NodupKeys tvKeys; decide)
      (by unfold NodupKeys tvKeys; decide),
   C5_similarity_symmetric_zero_self.2.1 _ _ (Or.inl rfl),
   C5_similarity_symmetric_zero_self.2.2 _
      ⟨by unfold NodupKeys tvKeys; decide, by decide⟩ (by decide)⟩

/-! ### Updates and accumulated sums -/

theorem tvGet_cons (p : String × Nat) (rest : TokenVector) (k : String) :
    tvGet (p :: rest) k = if p.1 = k then p.2 else tvGet rest k := by
  by_cases h : p.1 = k <;> simp [tvGet, List.find?, h]

theorem tvSet_cons_eq {p : String × Nat} {rest : TokenVector} {k : String}
    (n : Nat) (h : p.1 = k) : tvSet (p :: rest) k n = (k, n) :: rest := by
  simp [tvSet, h]

theorem tvSet_cons_ne {p : String × Nat} {rest : TokenVector} {k : String}
    (n : Nat) (h : ¬p.1 = k) : tvSet (p :: rest) k n = p :: tvSet rest k n := by
  simp [tvSet, h]

theorem tvGet_tvSet_self (v : TokenVector) (k : String) (n : Nat) :
    tvGet (tvSet v k n) k = n := by
  induction v with
  | nil => simp [tvSet, tvGet, List.find?]
  | cons p rest ih =>
      by_cases hp : p.1 = k
      · rw [tvSet_cons_eq n hp, tvGet_cons]
        simp
      · rw [tvSet_cons_ne n hp, tvGet_cons, if_neg hp]
        exact ih

theorem tvGet_tvSet_other {k k' : String} (v : TokenVector) (n : Nat) (h : k' ≠ k) :
    tvGet (tvSet v k n) k' = tvGet v k' := by
  induction v with
  | nil =>
      simp [tvSet, tvGet, List.find?, show ¬k = k' from fun he => h he.symm]
  | cons p rest ih =>
      by_cases hp : p.1 = k
      · rw [tvSet_cons_eq n hp, tvGet_cons, tvGet_cons,
          if_neg (show ¬k = k' from fun he => h he.symm),
          if_neg (show ¬p.1 = k' from by rw [hp]; exact fun he => h he.symm)]
      · rw [tvSet_cons_ne n hp, tvGet_cons, tvGet_cons, ih]

theorem tvKeys_cons (p : String × Nat) (rest : TokenVector) :
    tvKeys (p :: rest) = p.1 :: tvKeys rest := rfl

theorem tvKeys_tvSet (v : TokenVector) (k : String) (n : Nat) :
    tvKeys (tvSet v k n) = if k ∈ tvKeys v then tvKeys v else tvKeys v ++ [k] := by
  induction v with
  | nil => simp [tvSet, tvKeys]
  | cons p rest ih =>
      by_cases hp : p.1 = k
      · rw [tvSet_cons_eq n hp]
        have hcond : k ∈ tvKeys (p :: rest) := by
          rw [tvKeys_cons, hp]
          exact List.mem_cons_self _ _
        rw [if_pos hcond, tvKeys_cons, tvKeys_cons, hp]
      · rw [tvSet_cons_ne n hp]
        by_cases hm : k ∈ tvKeys rest
        · have hcond : k ∈ tvKeys (p :: rest) := by
            rw [tvKeys_cons]
            exact List.mem_cons_of_mem _ hm
          rw [if_pos hcond, tvKeys_cons, tvKeys_cons, ih, if_pos hm]
        · have hcond : k ∉ tvKeys (p :: rest) := by
            rw [tvKeys_cons]
            intro hmem
            rcases List.mem_cons.mp hmem with h | h
            · exact hp h.symm
            · exact hm h
          rw [if_neg hcond, tvKeys_cons, tvKeys_cons, ih, if_neg hm]
          simp

theorem nodupKeys_tvSet {v : TokenVector} (hv : NodupKeys v) (k : String) (n : Nat) :
    NodupKeys (tvSet v k n) := by
  unfold NodupKeys at hv ⊢
  rw [tvKeys_tvSet]
  by_cases hm : k ∈ tvKeys v
  · simpa [hm] using hv
  · simp [hm, List.nodup_append, hv]

theorem mem_tvSet {v : TokenVector} {k : String} {n : Nat} {p : String × Nat}
    (hp : p ∈ tvSet v k n) : p = (k, n) ∨ p ∈ v := by
  induction v with
  | nil => simpa [tvSet] using hp
  | cons q rest ih =>
      by_cases hq : q.1 = k
      · rcases List.mem_cons.mp (by rwa [tvSet_cons_eq n hq] at hp) with h | h
        · exact Or.inl h
        · exact Or.inr (List.mem_cons_of_mem _ h)
      · rcases List.mem_cons.mp (by rwa [tvSet_cons_ne n hq] at hp) with h | h
        · exact Or.inr (h ▸ List.mem_cons_self _ _)
        · rcases ih h with h' | h'
          · exact Or.inl h'
          · exact Or.inr (List.mem_cons_of_mem _ h')

theorem addToVectorSum_cons (t : TokenVector) (p : String × Nat) (rest : TokenVector) :
    addToVectorSum t (p :: rest)
      = addToVectorSum (tvSet t p.1 (tvGet t p.1 + p.2)) rest := by
  simp [addToVectorSum]

/-- The defining pointwise property of `addToVectorSum`, for a source with
the JS `Map` invariant. -/
theorem tvGet_addToVectorSum {s : TokenVector} (hs : NodupKeys s) :
    ∀ (t : TokenVector) (k : String),
      tvGet (addToVectorSum t s) k = tvGet t k + tvGet s k := by
  induction s with
  | nil => intro t k; simp [addToVectorSum, tvGet, List.find?]
  | cons p rest ih =>
      intro t k
      have hmem : p.1 ∉ tvKeys rest := by
        have := (List.nodup_cons.mp (by simpa [NodupKeys, tvKeys_cons] using hs)).1
        exact this
      have hrest : NodupKeys rest :=
        (List.nodup_cons.mp (by simpa [NodupKeys, tvKeys_cons] using hs)).2
      rw [addToVectorSum_cons, ih hrest, tvGet_cons]
      by_cases hk : p.1 = k
      · subst hk
        rw [tvGet_tvSet_self, tvGet_eq_zero_of_not_mem hmem]
        simp
      · rw [if_neg hk, tvGet_tvSet_other _ _ (fun he => hk he.symm)]

theorem nodupKeys_addToVectorSum {t s : TokenVector} (ht : NodupKeys t) :
    NodupKeys (addToVectorSum t s) := by
  induction s generalizing t with
  | nil => simpa [addToVectorSum] using ht
  | cons p rest ih =>
      rw [addToVectorSum_cons]
      exact ih (nodupKeys_tvSet ht _ _)

theorem wf_addToVectorSum {t s : TokenVector} (ht : WFVec t)
    (hs : ∀ p ∈ s, 0 < p.2) : WFVec (addToVectorSum t s) := by
  induction s generalizing t with
  | nil => simpa [addToVectorSum] using ht
  | cons p rest ih =>
      rw [addToVectorSum_cons]
      refine ih ⟨nodupKeys_tvSet ht.1 _ _, ?_⟩ (fun q hq => hs q (List.mem_cons_of_mem _ hq))
      intro q hq
      rcases mem_tvSet hq with h | h
      · have hp := hs p (List.mem_cons_self _ _)
        rw [h]
        simpa using Or.inr hp
      · exact ht.2 q h

theorem wf_countTokens (tokens : List String) : WFVec (countTokens tokens) := by
  have main : ∀ (l : List String) (v : TokenVector), WFVec v →
      WFVec (l.foldl (fun v t => tvSet v t (tvGet v t + 1)) v) := by
    intro l
    induction l with
    | nil => intro v hv; simpa using hv
    | cons t rest ih =>
        intro v hv
        refine ih _ ⟨nodupKeys_tvSet hv.1 _ _, ?_⟩
        intro q hq
        rcases mem_tvSet hq with h | h
        · rw [h]; simp
        · exact hv.2 q h
  exact main tokens [] ⟨List.nodup_nil, by simp⟩

theorem wf_toVector (l : List Char) : WFVec (toVector l) := wf_countTokens _

/-! ### Incremental clusterer (`buildWorkingClusters` in `cluster.ts`) -/

/-- An article prepared for clustering (`ClusterArticle` in `cluster.ts`). -/
structure ClusterArticle where
  id : String
  title : String
  snippet : Option String
  publishedAt : Option String
  vector : TokenVector
deriving DecidableEq, Repr

/-- `WorkingCluster` from `cluster.ts`. -/
structure WorkingCluster where
  members : List ClusterArticle
  vectorSum : TokenVector
deriving DecidableEq, Repr

/-- `CLUSTER_SIMILARITY_THRESHOLD = 0.32`, squared: the clusterer compares
squared cosines, and `0.32² = 64/625`. -/
def simQThreshold : ℚ := 64 / 625

/-- The loop of `findBestClusterIndex`: `i` is the index of the head of the
remaining list, `bi`/`bs` the best index (`-1` initially) and best
similarity (`0` initially) so far; an update needs strict improvement. -/
def findBestAux (v : TokenVector) : List WorkingCluster → Nat → Int → ℚ → Int × ℚ
  | [], _, bi, bs => (bi, bs)
  | c :: rest, i, bi, bs =>
      let s := simQ v c.vectorSum
      if bs < s then findBestAux v rest (i + 1) i s
      else findBestAux v rest (i + 1) bi bs

/-- `findBestClusterIndex` from `cluster.ts` (squared-cosine scale). -/
def findBestClusterIndex (v : TokenVector) (clusters : List WorkingCluster) :
    Int × ℚ :=
  findBestAux v clusters 0 (-1) 0

/-- `clusters[index]`: append the article and fold its vector into
`vectorSum` — the two mutations of the join branch. -/
def updateAt : List WorkingCluster → Nat → ClusterArticle → List WorkingCluster
  | [], _, _ => []
  | c :: rest, 0, a =>
      { members := c.members ++ [a],
        vectorSum := addToVectorSum c.vectorSum a.vector } :: rest
  | c :: rest, Nat.succ i, a => c :: updateAt rest i a

/-- One iteration of the loop body of `buildWorkingClusters`. -/
def clusterStep (clusters : List WorkingCluster) (article : ClusterArticle) :
    List WorkingCluster :=
  let r := findBestClusterIndex article.vector clusters
  if 0 ≤ r.1 ∧ simQThreshold ≤ r.2 then
    updateAt clusters r.1.toNat article
  else
    clusters ++ [{ members := [article],
                   vectorSum := addToVectorSum [] article.vector }]

/-- `buildWorkingClusters` from `cluster.ts`. -/
def buildWorkingClusters (articles : List ClusterArticle) : List WorkingCluster :=
  articles.foldl clusterStep []

/-- The vector-sum invariant, stated pointwise. -/
def SumInv (cs : List WorkingCluster) : Prop :=
  ∀ c ∈ cs, ∀ k, tvGet c.vectorSum k = (c.members.map (fun m => tvGet m.vector k)).sum

theorem sumInv_updateAt {cs : List WorkingCluster} {a : ClusterArticle}
    (hinv : SumInv cs) (ha : NodupKeys a.vector) :
    ∀ i, SumInv (updateAt cs i a) := by
  induction cs with
  | nil => intro i c hc; simp [updateAt] at hc
  | cons c0 rest ih =>
      intro i c hc k
      cases i with
      | zero =>
          simp [updateAt] at hc
          rcases hc with hc | hc
          · subst hc
            simp only [tvGet_addToVectorSum ha, List.map_append, List.sum_append]
            rw [hinv c0 (List.mem_cons_self _ _) k]
            simp
          · exact hinv c (List.mem_cons_of_mem _ hc) k
      | succ i =>
          simp [updateAt] at hc
          rcases hc with hc | hc
          · subst hc
            exact hinv c (List.mem_cons_self _ _) k
          · exact ih (fun c' hc' k' => hinv c' (List.mem_cons_of_mem _ hc') k') i c hc k

theorem sumInv_clusterStep {cs : List WorkingCluster} {a : ClusterArticle}
    (hinv : SumInv cs) (ha : NodupKeys a.vector) : SumInv (clusterStep cs a) := by
  show SumInv
    (if 0 ≤ (findBestClusterIndex a.vector cs).1 ∧
        simQThreshold ≤ (findBestClusterIndex a.vector cs).2 then
      updateAt cs (findBestClusterIndex a.vector cs).1.toNat a
    else cs ++ [{ members := [a], vectorSum := addToVectorSum [] a.vector }])
  split
  · exact sumInv_updateAt hinv ha _
  · intro c hc k
    rcases List.mem_append.mp hc with hc | hc
    · exact hinv c hc k
    · simp at hc
      subst hc
      simp only []
      rw [tvGet_addToVectorSum ha]
      simp [tvGet, List.find?]

theorem sumInv_foldl {arts : List ClusterArticle}
    (harts : ∀ a ∈ arts, NodupKeys a.vector) :
    ∀ cs : List WorkingCluster, SumInv cs → SumInv (arts.foldl clusterStep cs) := by
  induction arts with
  | nil => intro cs h; simpa using h
  | cons a rest ih =>
      intro cs h
      simp only [List.foldl_cons]
      exact ih (fun a' ha' => harts a' (List.mem_cons_of_mem _ ha'))
        _ (sumInv_clusterStep h (harts a (List.mem_cons_self _ _)))

/--
**C7**: after the incremental clusterer processes any input article sequence
— and after every intermediate assignment step, i.e. after any prefix of the
input — each `WorkingCluster`'s `vectorSum` equals the elementwise sum of
its current members' token vectors.  (Article vectors are quantified over
well-formed JS maps; every vector the pipeline builds satisfies this, by
`wf_toVector`.)
-/
theorem C7_vector_sum_invariant (arts : List ClusterArticle)
    (harts : ∀ a ∈ arts, NodupKeys a.vector) (pre suf : List ClusterArticle)
    (hsplit : arts = pre ++ suf) :
    ∀ c ∈ buildWorkingClusters pre, ∀ k,
      tvGet c.vectorSum k = (c.members.map (fun m => tvGet m.vector k)).sum := by
  have hpre : ∀ a ∈ pre, NodupKeys a.vector := by
    intro a ha
    exact harts a (hsplit ▸ List.mem_append.mpr (Or.inl ha))
  exact sumInv_foldl hpre [] (by intro c hc; simp at hc)

/-- Witness for C7: the cluster built from a concrete one-article run
satisfies the invariant at the key `"rate"`. -/
theorem C7_witness :
    (⟨[⟨"a1", "fed raises rates", none, none, [("fed", 1), ("rate", 2)]⟩],
      [("fed", 1), ("rate", 2)]⟩ : WorkingCluster) ∈ buildWorkingClusters
      [⟨"a1", "fed raises rates", none, none, [("fed", 1), ("rate", 2)]⟩] ∧
    tvGet (⟨[⟨"a1", "fed raises rates", none, none,
        [("fed", 1), ("rate", 2)]⟩],
      [("fed", 1), ("rate", 2)]⟩ : WorkingCluster).vectorSum "rate"
      = ((⟨[⟨"a1", "fed raises rates", none, none,
          [("fed", 1), ("rate", 2)]⟩],
        [("fed", 1), ("rate", 2)]⟩ : WorkingCluster).members.map
          (fun m => tvGet m.vector "rate")).sum := by
  have harts : ∀ a ∈ ([⟨"a1", "fed raises rates", none, none,
        [("fed", 1), ("rate", 2)]⟩] : List ClusterArticle),
      NodupKeys a.vector := by
    intro a ha
    rw [List.mem_singleton] at ha
    subst ha
    unfold NodupKeys tvKeys
    decide
  have hmem : (⟨[⟨"a1", "fed raises rates", none, none,
        [("fed", 1), ("rate", 2)]⟩],
      [("fed", 1), ("rate", 2)]⟩ : WorkingCluster) ∈ buildWorkingClusters
      [⟨"a1", "fed raises rates", none, none, [("fed", 1), ("rate", 2)]⟩] := by
    decide
  exact ⟨hmem, C7_vector_sum_invariant _ harts _ [] (by simp) _ hmem "rate"⟩
/-! ### Characterization of `findBestClusterIndex` -/

theorem findBestAux_spec (v : TokenVector) :
    ∀ (l : List WorkingCluster) (i0 : Nat) (bi : Int) (bs : ℚ),
      (findBestAux v l i0 bi bs = (bi, bs) ∧
        ∀ j (hj : j < l.length), simQ v ((l.get ⟨j, hj⟩).vectorSum) ≤ bs) ∨
      (∃ j, ∃ hj : j < l.length,
        findBestAux v l i0 bi bs
            = (((i0 + j : Nat) : Int), simQ v ((l.get ⟨j, hj⟩).vectorSum)) ∧
        bs < simQ v ((l.get ⟨j, hj⟩).vectorSum) ∧
        (∀ j' (hj' : j' < l.length),
          simQ v ((l.get ⟨j', hj'⟩).vectorSum) ≤ simQ v ((l.get ⟨j, hj⟩).vectorSum)) ∧
        (∀ j' (hj' : j' < l.length), j' < j →
          simQ v ((l.get ⟨j', hj'⟩).vectorSum) < simQ v ((l.get ⟨j, hj⟩).vectorSum))) := by
  intro l
  induction l with
  | nil =>
      intro i0 bi bs
      left
      exact ⟨rfl, by intro j hj; simp at hj⟩
  | cons c rest ih =>
      intro i0 bi bs
      simp only [findBestAux]
      by_cases hlt : bs < simQ v c.vectorSum
      · rw [if_pos hlt]
        rcases ih (i0 + 1) i0 (simQ v c.vectorSum) with
          ⟨heq, hall⟩ | ⟨j, hj, heq, hgt, hmax, hbef⟩
        · right
          refine ⟨0, by simp, ?_, by simpa using hlt, ?_, ?_⟩
          · rw [heq]
            simp
          · intro j' hj'
            cases j' with
            | zero => simp
            | succ j'' =>
                simp only [List.get_cons_succ, List.get_cons_zero]
                exact hall j'' (by simpa using Nat.lt_of_succ_lt_succ hj')
          · intro j' hj' h0
            omega
        · right
          refine ⟨j + 1, by simpa using Nat.succ_lt_succ hj, ?_, ?_, ?_, ?_⟩
          · rw [heq, show i0 + 1 + j = i0 + (j + 1) by omega]
            simp
          · exact lt_trans hlt hgt
          · intro j' hj'
            cases j' with
            | zero =>
                simp only [List.get_cons_zero, List.get_cons_succ]
                exact le_of_lt hgt
            | succ j'' =>
                simp only [List.get_cons_succ]
                exact hmax j'' (Nat.lt_of_succ_lt_succ hj')
          · intro j' hj' hl
            cases j' with
            | zero =>
                simp only [List.get_cons_zero, List.get_cons_succ]
                exact hgt
            | succ j'' =>
                simp only [List.get_cons_succ]
                exact hbef j'' (Nat.lt_of_succ_lt_succ hj') (Nat.lt_of_succ_lt_succ hl)
      · rw [if_neg hlt]
        have hle : simQ v c.vectorSum ≤ bs := not_lt.mp hlt
        rcases ih (i0 + 1) bi bs with
          ⟨heq, hall⟩ | ⟨j, hj, heq, hgt, hmax, hbef⟩
        · left
          refine ⟨heq, ?_⟩
          intro j hjj
          cases j with
          | zero => simpa using hle
          | succ j'' =>
              simp only [List.get_cons_succ]
              exact hall j'' (Nat.lt_of_succ_lt_succ hjj)
        · right
          refine ⟨j + 1, by simpa using Nat.succ_lt_succ hj, ?_, ?_, ?_, ?_⟩
          · rw [heq, show i0 + 1 + j = i0 + (j + 1) by omega]
            simp
          · simpa using hgt
          · intro j' hj'
            cases j' with
            | zero =>
                simp only [List.get_cons_zero, List.get_cons_succ]
                exact le_trans hle (le_of_lt hgt)
            | succ j'' =>
                simp only [List.get_cons_succ]
                exact hmax j'' (Nat.lt_of_succ_lt_succ hj')
          · intro j' hj' hl
            cases j' with
            | zero =>
                simp only [List.get_cons_zero, List.get_cons_succ]
                exact lt_of_le_of_lt hle hgt
            | succ j'' =>
                simp only [List.get_cons_succ]
                exact hbef j'' (Nat.lt_of_succ_lt_succ hj') (Nat.lt_of_succ_lt_succ hl)

/-- The loop of `findBestClusterIndex` returns `(-1, 0)` when no cluster has
positive similarity, and otherwise the first index attaining the maximum
similarity, which is then the returned best similarity. -/
theorem findBest_spec (v : TokenVector) (cs : List WorkingCluster) :
    (findBestClusterIndex v cs = (-1, 0) ∧
      ∀ j (hj : j < cs.length), simQ v ((cs.get ⟨j, hj⟩).vectorSum) ≤ 0) ∨
    (∃ j, ∃ hj : j < cs.length,
      findBestClusterIndex v cs = ((j : Int), simQ v ((cs.get ⟨j, hj⟩).vectorSum)) ∧
      0 < simQ v ((cs.get ⟨j, hj⟩).vectorSum) ∧
      (∀ j' (hj' : j' < cs.length),
        simQ v ((cs.get ⟨j', hj'⟩).vectorSum) ≤ simQ v ((cs.get ⟨j, hj⟩).vectorSum)) ∧
      (∀ j' (hj' : j' < cs.length), j' < j →
        simQ v ((cs.get ⟨j', hj'⟩).vectorSum) < simQ v ((cs.get ⟨j, hj⟩).vectorSum))) := by
  rcases findBestAux_spec v cs 0 (-1) 0 with ⟨heq, hall⟩ | ⟨j, hj, heq, hgt, hmax, hbef⟩
  · exact Or.inl ⟨heq, hall⟩
  · right
    exact ⟨j, hj, by simpa using heq, hgt, hmax, hbef⟩

/-- The join branch: when the first cluster attaining the maximal similarity
passes the threshold, the article is appended to it. -/
theorem clusterStep_eq_updateAt {cs : List WorkingCluster} {a : ClusterArticle}
    {j : Nat} (hj : j < cs.length)
    (hmax : ∀ j' (hj' : j' < cs.length),
      simQ a.vector ((cs.get ⟨j', hj'⟩).vectorSum)
        ≤ simQ a.vector ((cs.get ⟨j, hj⟩).vectorSum))
    (hbef : ∀ j' (hj' : j' < cs.length), j' < j →
      simQ a.vector ((cs.get ⟨j', hj'⟩).vectorSum)
        < simQ a.vector ((cs.get ⟨j, hj⟩).vectorSum))
    (hthr : simQThreshold ≤ simQ a.vector ((cs.get ⟨j, hj⟩).vectorSum)) :
    clusterStep cs a = updateAt cs j a := by
  rcases findBest_spec a.vector cs with ⟨heq, hall⟩ | ⟨jb, hjb, heq, hpos, hmaxb, hbefb⟩
  · have := le_trans hthr (hall j hj)
    norm_num [simQThreshold] at this
  · have hjeq : jb = j := by
      rcases lt_trichotomy jb j with h | h | h
      · exact absurd (hbef jb hjb h) (not_lt.mpr (hmaxb j hj))
      · exact h
      · exact absurd (hbefb j hj h) (not_lt.mpr (hmax jb hjb))
    subst hjeq
    show (if 0 ≤ (findBestClusterIndex a.vector cs).1 ∧
        simQThreshold ≤ (findBestClusterIndex a.vector cs).2 then
      updateAt cs (findBestClusterIndex a.vector cs).1.toNat a
    else cs ++ [{ members := [a], vectorSum := addToVectorSum [] a.vector }])
      = updateAt cs jb a
    rw [heq]
    rw [if_pos ⟨by positivity, hthr⟩]
    simp

/-- The new-cluster branch: when every cluster's similarity is below the
threshold (in particular when no cluster exists), a fresh singleton cluster
is appended. -/
theorem clusterStep_eq_append {cs : List WorkingCluster} {a : ClusterArticle}
    (h : ∀ j (hj : j < cs.length),
      simQ a.vector ((cs.get ⟨j, hj⟩).vectorSum) < simQThreshold) :
    clusterStep cs a
      = cs ++ [{ members := [a], vectorSum := addToVectorSum [] a.vector }] := by
  rcases findBest_spec a.vector cs with ⟨heq, hall⟩ | ⟨jb, hjb, heq, hpos, hmaxb, hbefb⟩
  · show (if 0 ≤ (findBestClusterIndex a.vector cs).1 ∧
        simQThreshold ≤ (findBestClusterIndex a.vector cs).2 then
      updateAt cs (findBestClusterIndex a.vector cs).1.toNat a
    else cs ++ [{ members := [a], vectorSum := addToVectorSum [] a.vector }]) = _
    rw [heq, if_neg]
    rintro ⟨h1, _⟩
    norm_num at h1
  · show (if 0 ≤ (findBestClusterIndex a.vector cs).1 ∧
        simQThreshold ≤ (findBestClusterIndex a.vector cs).2 then
      updateAt cs (findBestClusterIndex a.vector cs).1.toNat a
    else cs ++ [{ members := [a], vectorSum := addToVectorSum [] a.vector }]) = _
    rw [heq, if_neg]
    rintro ⟨_, h2⟩
    exact absurd h2 (not_le.mpr (h jb hjb))

/-! ### The clusterer partitions its input -/

theorem flatten_updateAt {a : ClusterArticle} :
    ∀ (cs : List WorkingCluster) (i : Nat), i < cs.length →
      ((updateAt cs i a).map (fun c => c.members)).flatten.Perm
        ((cs.map (fun c => c.members)).flatten ++ [a]) := by
  intro cs
  induction cs with
  | nil => intro i hi; simp at hi
  | cons c rest ih =>
      intro i hi
      cases i with
      | zero =>
          simp only [updateAt, List.map_cons, List.flatten_cons]
          rw [List.append_assoc, List.append_assoc]
          exact List.Perm.append_left _ List.perm_append_comm
      | succ i =>
          simp only [updateAt, List.map_cons, List.flatten_cons]
          rw [List.append_assoc]
          exact List.Perm.append_left _ (ih i (Nat.lt_of_succ_lt_succ hi))

theorem flatten_clusterStep (cs : List WorkingCluster) (a : ClusterArticle) :
    ((clusterStep cs a).map (fun c => c.members)).flatten.Perm
      ((cs.map (fun c => c.members)).flatten ++ [a]) := by
  rcases findBest_spec a.vector cs with ⟨heq, hall⟩ | ⟨jb, hjb, heq, hpos, hmaxb, hbefb⟩
  · have hstep : clusterStep cs a
        = cs ++ [{ members := [a], vectorSum := addToVectorSum [] a.vector }] := by
      show (if 0 ≤ (findBestClusterIndex a.vector cs).1 ∧
          simQThreshold ≤ (findBestClusterIndex a.vector cs).2 then
        updateAt cs (findBestClusterIndex a.vector cs).1.toNat a
      else cs ++ [{ members := [a], vectorSum := addToVectorSum [] a.vector }]) = _
      rw [heq, if_neg]
      rintro ⟨h1, _⟩
      norm_num at h1
    rw [hstep]
    simp
  · by_cases hthr : simQThreshold ≤ simQ a.vector ((cs.get ⟨jb, hjb⟩).vectorSum)
    · have hstep : clusterStep cs a = updateAt cs jb a := by
        show (if 0 ≤ (findBestClusterIndex a.vector cs).1 ∧
            simQThreshold ≤ (findBestClusterIndex a.vector cs).2 then
          updateAt cs (findBestClusterIndex a.vector cs).1.toNat a
        else cs ++ [{ members := [a], vectorSum := addToVectorSum [] a.vector }]) = _
        rw [heq, if_pos ⟨by positivity, hthr⟩]
        simp
      rw [hstep]
      exact flatten_updateAt cs jb hjb
    · have hstep : clusterStep cs a
          = cs ++ [{ members := [a], vectorSum := addToVectorSum [] a.vector }] := by
        show (if 0 ≤ (findBestClusterIndex a.vector cs).1 ∧
            simQThreshold ≤ (findBestClusterIndex a.vector cs).2 then
          updateAt cs (findBestClusterIndex a.vector cs).1.toNat a
        else cs ++ [{ members := [a], vectorSum := addToVectorSum [] a.vector }]) = _
        rw [heq, if_neg]
        rintro ⟨_, h2⟩
        exact hthr h2
      rw [hstep]
      simp

theorem flatten_foldl_clusterStep (arts : List ClusterArticle) :
    ∀ cs : List WorkingCluster,
      ((arts.foldl clusterStep cs).map (fun c => c.members)).flatten.Perm
        ((cs.map (fun c => c.members)).flatten ++ arts) := by
  induction arts with
  | nil => intro cs; simp
  | cons a rest ih =>
      intro cs
      simp only [List.foldl_cons]
      refine (ih _).trans ?_
      have h2 := (flatten_clusterStep cs a).append_right rest
      have h3 : ((cs.map (fun c => c.members)).flatten ++ [a]) ++ rest
          = (cs.map (fun c => c.members)).flatten ++ (a :: rest) := by simp
      rw [h3] at h2
      exact h2

/-- Every article of the input occurs in exactly one working cluster: the
concatenation of all member lists is a permutation of the input. -/
theorem buildWorkingClusters_partition (arts : List ClusterArticle) :
    ((buildWorkingClusters arts).map (fun c => c.members)).flatten.Perm arts := by
  have h := flatten_foldl_clusterStep arts []
  simpa using h

/--
**C3**: the incremental clusterer processes articles in the given order
(a left fold of the step function starting from no clusters); each step
appends the article to the existing cluster whose accumulated `vectorSum`
has the maximum cosine similarity to the article's vector when that maximum
is ≥ 0.32 and at least one cluster exists — ties going to the
first-encountered (lowest-index) cluster, since comparison uses strict
`>` — and otherwise starts a new cluster containing only that article,
so every article ends up in exactly one cluster.
-/
theorem C3_incremental_greedy_assignment :
    (∀ arts : List ClusterArticle, buildWorkingClusters arts = arts.foldl clusterStep []) ∧
    (∀ arts : List ClusterArticle,
      ((buildWorkingClusters arts).map (fun c => c.members)).flatten.Perm arts) ∧
    (∀ (cs : List WorkingCluster) (a : ClusterArticle) (j : Nat) (hj : j < cs.length),
      (∀ j' (hj' : j' < cs.length),
        cosineSimilarity a.vector ((cs.get ⟨j', hj'⟩).vectorSum)
          ≤ cosineSimilarity a.vector ((cs.get ⟨j, hj⟩).vectorSum)) →
      (∀ j' (hj' : j' < cs.length), j' < j →
        cosineSimilarity a.vector ((cs.get ⟨j', hj'⟩).vectorSum)
          < cosineSimilarity a.vector ((cs.get ⟨j, hj⟩).vectorSum)) →
      (((8:ℝ)/25 ≤ cosineSimilarity a.vector ((cs.get ⟨j, hj⟩).vectorSum) →
          clusterStep cs a = updateAt cs j a) ∧
        (cosineSimilarity a.vector ((cs.get ⟨j, hj⟩).vectorSum) < (8:ℝ)/25 →
          clusterStep cs a
            = cs ++ [{ members := [a], vectorSum := addToVectorSum [] a.vector }]))) ∧
    (∀ (cs : List WorkingCluster) (a : ClusterArticle),
      (∀ j (hj : j < cs.length),
        cosineSimilarity a.vector ((cs.get ⟨j, hj⟩).vectorSum) ≤ 0) →
      clusterStep cs a
        = cs ++ [{ members := [a], vectorSum := addToVectorSum [] a.vector }]) := by
  refine ⟨fun _ => rfl, buildWorkingClusters_partition, ?_, ?_⟩
  · intro cs a j hj hmax hbef
    have hmaxQ : ∀ j' (hj' : j' < cs.length),
        simQ a.vector ((cs.get ⟨j', hj'⟩).vectorSum)
          ≤ simQ a.vector ((cs.get ⟨j, hj⟩).vectorSum) := by
      intro j' hj'
      exact cosineSimilarity_le_iff.mp (hmax j' hj')
    have hbefQ : ∀ j' (hj' : j' < cs.length), j' < j →
        simQ a.vector ((cs.get ⟨j', hj'⟩).vectorSum)
          < simQ a.vector ((cs.get ⟨j, hj⟩).vectorSum) := by
      intro j' hj' hl
      exact cosineSimilarity_lt_iff.mp (hbef j' hj' hl)
    constructor
    · intro hthr
      exact clusterStep_eq_updateAt hj hmaxQ hbefQ
        (cosineSimilarity_threshold_iff.mp hthr)
    · intro hthr
      apply clusterStep_eq_append
      intro j' hj'
      have h1 : cosineSimilarity a.vector ((cs.get ⟨j', hj'⟩).vectorSum) < (8:ℝ)/25 :=
        lt_of_le_of_lt (hmax j' hj') hthr
      have h2 : ¬((64:ℚ)/625 ≤ simQ a.vector ((cs.get ⟨j', hj'⟩).vectorSum)) := by
        intro hc
        exact absurd (cosineSimilarity_threshold_iff.mpr hc) (not_le.mpr h1)
      simpa [simQThreshold] using not_le.mp h2
  · intro cs a hz
    apply clusterStep_eq_append
    intro j hj
    have h1 : cosineSimilarity a.vector ((cs.get ⟨j, hj⟩).vectorSum) < (8:ℝ)/25 :=
      lt_of_le_of_lt (hz j hj) (by norm_num)
    have h2 : ¬((64:ℚ)/625 ≤ simQ a.vector ((cs.get ⟨j, hj⟩).vectorSum)) := by
      intro hc
      exact absurd (cosineSimilarity_threshold_iff.mpr hc) (not_le.mpr h1)
    simpa [simQThreshold] using not_le.mp h2

/-- Witness for C3: a second identical article joins the singleton cluster
of the first. -/
theorem C3_witness :
    clusterStep [⟨[⟨"x", "fed", none, none, [("fed", 1)]⟩], [("fed", 1)]⟩]
        ⟨"y", "fed", none, none, [("fed", 1)]⟩
      = updateAt [⟨[⟨"x", "fed", none, none, [("fed", 1)]⟩], [("fed", 1)]⟩] 0
        ⟨"y", "fed", none, none, [("fed", 1)]⟩ := by
  have hcos : cosineSimilarity ([("fed", 1)] : TokenVector) [("fed", 1)] = 1 :=
    cosineSimilarity_self ⟨by unfold NodupKeys tvKeys; decide, by decide⟩ (by decide)
  refine (C3_incremental_greedy_assignment.2.2.1 _ _ 0 (by simp) ?_ ?_).1 ?_
  · intro j' hj'
    have hj1 : j' < 1 := by simpa using hj'
    have hj0 : j' = 0 := by omega
    subst hj0
    exact le_refl _
  · intro j' hj' h
    omega
  · show (8:ℝ)/25 ≤ cosineSimilarity ([("fed", 1)] : TokenVector) [("fed", 1)]
    rw [hcos]
    norm_num

/-! ### Further facts about sums and similarities -/

theorem tvSet_of_not_mem {t : TokenVector} {k : String} (n : Nat)
    (h : k ∉ tvKeys t) : tvSet t k n = t ++ [(k, n)] := by
  induction t with
  | nil => simp [tvSet]
  | cons p rest ih =>
      have hp : ¬p.1 = k := fun he => h (he ▸ List.mem_cons_self _ _)
      rw [tvSet_cons_ne n hp, ih (fun hm => h (List.mem_cons_of_mem _ hm))]
      simp

theorem addToVectorSum_disjoint :
    ∀ (v t : TokenVector), NodupKeys v → (∀ k ∈ tvKeys v, k ∉ tvKeys t) →
      addToVectorSum t v = t ++ v := by
  intro v
  induction v with
  | nil => intro t _ _; simp [addToVectorSum]
  | cons p rest ih =>
      intro t hv hdisj
      have hp : p.1 ∉ tvKeys t := hdisj p.1 (by simp [tvKeys_cons])
      rw [addToVectorSum_cons, tvGet_eq_zero_of_not_mem hp]
      have hv' : NodupKeys rest :=
        (List.nodup_cons.mp (by simpa [NodupKeys, tvKeys_cons] using hv)).2
      have hpk : p.1 ∉ tvKeys rest :=
        (List.nodup_cons.mp (by simpa [NodupKeys, tvKeys_cons] using hv)).1
      rw [tvSet_of_not_mem _ hp]
      rw [ih (t ++ [(p.1, 0 + p.2)]) hv' ?_]
      · simp [Nat.zero_add]
      · intro k hk
        rw [tvKeys, List.map_append]
        intro hmem
        rcases List.mem_append.mp hmem with h1 | h1
        · exact hdisj k (by simp [tvKeys_cons, hk]) h1
        · simp at h1
          exact hpk (h1 ▸ hk)

theorem addToVectorSum_nil {v : TokenVector} (hv : NodupKeys v) :
    addToVectorSum [] v = v := by
  simpa using addToVectorSum_disjoint v [] hv (by intro k _; simp [tvKeys])

theorem simQ_self {v : TokenVector} (hv : WFVec v) (hne : v ≠ []) :
    simQ v v = 1 := by
  have hpos : 0 < normSq v := normSq_pos hv hne
  unfold simQ
  rw [if_neg (by simp [hne]), if_neg (by simp [Nat.pos_iff_ne_zero.mp hpos])]
  rw [dotProd_self hv.1, sq]
  exact div_self (by positivity)

theorem simQ_le_one {a b : TokenVector} (ha : NodupKeys a) (hb : NodupKeys b) :
    simQ a b ≤ 1 := by
  unfold simQ
  split
  · norm_num
  · split
    · norm_num
    · rename_i h1 h2
      have hna : 0 < normSq a := Nat.pos_of_ne_zero (fun h => h2 (Or.inl h))
      have hnb : 0 < normSq b := Nat.pos_of_ne_zero (fun h => h2 (Or.inr h))
      rw [div_le_one (by positivity)]
      have hcs := dotProd_sq_le ha hb
      have : ((dotProd a b : ℚ)) ^ 2 = ((dotProd a b * dotProd a b : ℕ) : ℚ) := by
        push_cast
        ring
      rw [this]
      exact_mod_cast hcs

theorem dotProd_addToVectorSum_self {v S : TokenVector} (hv : WFVec v) :
    dotProd v (addToVectorSum S v) = dotProd v S + normSq v := by
  rw [dotProd_eq_finset_sum _ hv.1, dotProd_eq_finset_sum _ hv.1,
    normSq_eq_finset_sum hv.1]
  rw [show ∑ k ∈ keyFinset v, tvGet v k * tvGet (addToVectorSum S v) k
      = ∑ k ∈ keyFinset v, (tvGet v k * tvGet S k + tvGet v k * tvGet v k) from
    Finset.sum_congr rfl (fun k _ => by rw [tvGet_addToVectorSum hv.1]; ring)]
  rw [Finset.sum_add_distrib]

theorem keyFinset_addToVectorSum_subset {v S : TokenVector} (hv : WFVec v)
    (hS : WFVec S) :
    keyFinset (addToVectorSum S v) ⊆ keyFinset S ∪ keyFinset v := by
  intro k hk
  have hwf : WFVec (addToVectorSum S v) := wf_addToVectorSum hS hv.2
  by_contra hmem
  rw [Finset.mem_union] at hmem
  push_neg at hmem
  have h1 : tvGet S k = 0 := tvGet_eq_zero_of_not_mem_keyFinset hmem.1
  have h2 : tvGet v k = 0 := tvGet_eq_zero_of_not_mem_keyFinset hmem.2
  have h3 : tvGet (addToVectorSum S v) k = 0 := by
    rw [tvGet_addToVectorSum hv.1, h1, h2]
  rcases List.mem_map.mp (List.mem_toFinset.mp hk) with ⟨p, hp, hpk⟩
  have := hwf.2 p hp
  rw [← hpk] at h3
  rw [tvGet_eq_of_mem hwf.1 hp] at h3
  omega

theorem normSq_addToVectorSum_self {v S : TokenVector} (hv : WFVec v)
    (hS : WFVec S) :
    normSq (addToVectorSum S v) = normSq S + 2 * dotProd v S + normSq v := by
  set U : Finset String := keyFinset S ∪ keyFinset v with hU
  have hwf : WFVec (addToVectorSum S v) := wf_addToVectorSum hS hv.2
  have e1 : normSq (addToVectorSum S v)
      = ∑ k ∈ U, tvGet (addToVectorSum S v) k * tvGet (addToVectorSum S v) k := by
    rw [normSq_eq_finset_sum hwf.1]
    exact sum_tvGet_extend _ (keyFinset_addToVectorSum_subset hv hS)
  have e2 : normSq S = ∑ k ∈ U, tvGet S k * tvGet S k := by
    rw [normSq_eq_finset_sum hS.1]
    exact sum_tvGet_extend _ Finset.subset_union_left
  have e3 : normSq v = ∑ k ∈ U, tvGet v k * tvGet v k := by
    rw [normSq_eq_finset_sum hv.1]
    exact sum_tvGet_extend _ Finset.subset_union_right
  have e4 : dotProd v S = ∑ k ∈ U, tvGet v k * tvGet S k := by
    rw [dotProd_eq_finset_sum _ hv.1]
    exact sum_tvGet_extend _ Finset.subset_union_right
  rw [e1, e2, e3, e4]
  rw [show ∑ k ∈ U, tvGet (addToVectorSum S v) k * tvGet (addToVectorSum S v) k
      = ∑ k ∈ U, (tvGet S k * tvGet S k + 2 * (tvGet v k * tvGet S k)
          + tvGet v k * tvGet v k) from
    Finset.sum_congr rfl (fun k _ => by rw [tvGet_addToVectorSum hv.1]; ring)]
  rw [Finset.sum_add_distrib, Finset.sum_add_distrib, ← Finset.mul_sum]

theorem simQ_nil_right (v : TokenVector) : simQ v [] = 0 := by
  simp [simQ]

/-- Folding an article's own vector into a cluster sum cannot decrease the
(squared) cosine similarity between the article and the cluster. -/
theorem simQ_add_self_ge {v S : TokenVector} (hv : WFVec v) (hvne : v ≠ [])
    (hS : WFVec S) : simQ v S ≤ simQ v (addToVectorSum S v) := by
  by_cases hSne : S = []
  · subst hSne
    rw [simQ_nil_right]
    exact simQ_nonneg _ _
  · have hn : 0 < normSq v := normSq_pos hv hvne
    have hm : 0 < normSq S := normSq_pos hS hSne
    have hd2 : dotProd v (addToVectorSum S v) = dotProd v S + normSq v :=
      dotProd_addToVectorSum_self hv
    have hm2 : normSq (addToVectorSum S v) = normSq S + 2 * dotProd v S + normSq v :=
      normSq_addToVectorSum_self hv hS
    have hm2pos : 0 < normSq (addToVectorSum S v) := by omega
    have hS'ne : addToVectorSum S v ≠ [] := by
      intro h
      rw [h] at hm2pos
      simp [normSq] at hm2pos
    have eLHS : simQ v S
        = (dotProd v S : ℚ) ^ 2 / ((normSq v : ℚ) * (normSq S : ℚ)) := by
      unfold simQ
      rw [if_neg (by simp [hvne, hSne]), if_neg (by omega)]
    have eRHS : simQ v (addToVectorSum S v)
        = ((dotProd v S : ℚ) + (normSq v : ℚ)) ^ 2
            / ((normSq v : ℚ) * ((normSq S : ℚ) + 2 * (dotProd v S : ℚ)
              + (normSq v : ℚ))) := by
      unfold simQ
      rw [if_neg (by simp [hvne, hS'ne]), if_neg (by omega), hd2, hm2]
      push_cast
      ring_nf
    rw [eLHS, eRHS]
    set dq : ℚ := (dotProd v S : ℚ) with hdq
    set nq : ℚ := (normSq v : ℚ) with hnq
    set mq : ℚ := (normSq S : ℚ) with hmq
    have hdq0 : 0 ≤ dq := by positivity
    have hnq0 : 0 < nq := by rw [hnq]; exact_mod_cast hn
    have hmq0 : 0 < mq := by rw [hmq]; exact_mod_cast hm
    have hcs : dq ^ 2 ≤ nq * mq := by
      have := dotProd_sq_le hv.1 hS.1
      rw [hdq, hnq, hmq]
      rw [sq]
      exact_mod_cast this
    rw [div_le_div_iff₀ (by positivity) (by positivity)]
    have h1 : 2 * dq * dq ^ 2 ≤ 2 * dq * (nq * mq) :=
      mul_le_mul_of_nonneg_left hcs (by positivity)
    have h2 : nq * dq ^ 2 ≤ nq * (nq * mq) :=
      mul_le_mul_of_nonneg_left hcs (by positivity)
    nlinarith [h1, h2, hnq0.le, hmq0.le, hdq0]

/-! ### Access lemmas for `updateAt` and appended clusters -/

theorem updateAt_length (a : ClusterArticle) :
    ∀ (cs : List WorkingCluster) (i : Nat), (updateAt cs i a).length = cs.length := by
  intro cs
  induction cs with
  | nil => intro i; simp [updateAt]
  | cons c rest ih =>
      intro i
      cases i with
      | zero => simp [updateAt]
      | succ i => simp [updateAt, ih i]

theorem get_updateAt_self {a : ClusterArticle} :
    ∀ (cs : List WorkingCluster) (i : Nat) (hi : i < cs.length),
      (updateAt cs i a).get ⟨i, by rw [updateAt_length]; exact hi⟩
        = { members := (cs.get ⟨i, hi⟩).members ++ [a],
            vectorSum := addToVectorSum (cs.get ⟨i, hi⟩).vectorSum a.vector } := by
  intro cs
  induction cs with
  | nil => intro i hi; simp at hi
  | cons c rest ih =>
      intro i hi
      cases i with
      | zero => simp [updateAt]
      | succ i => simpa [updateAt] using ih i (Nat.lt_of_succ_lt_succ hi)

theorem get_updateAt_other {a : ClusterArticle} :
    ∀ (cs : List WorkingCluster) (i j : Nat) (hj : j < cs.length), j ≠ i →
      (updateAt cs i a).get ⟨j, by rw [updateAt_length]; exact hj⟩
        = cs.get ⟨j, hj⟩ := by
  intro cs
  induction cs with
  | nil => intro i j hj _; simp at hj
  | cons c rest ih =>
      intro i j hj hne
      cases i with
      | zero =>
          cases j with
          | zero => exact absurd rfl hne
          | succ j => simp [updateAt]
      | succ i =>
          cases j with
          | zero => simp [updateAt]
          | succ j =>
              simpa [updateAt] using
                ih i j (Nat.lt_of_succ_lt_succ hj) (fun h => hne (by omega))

theorem get_append_singleton_left {cs : List WorkingCluster} {c : WorkingCluster}
    {j : Nat} (hj : j < cs.length) :
    (cs ++ [c]).get ⟨j, by simp; omega⟩ = cs.get ⟨j, hj⟩ := by
  simp [List.getElem_append, hj]

theorem get_append_singleton_last {cs : List WorkingCluster} {c : WorkingCluster} :
    (cs ++ [c]).get ⟨cs.length, by simp⟩ = c := by
  simp [List.get_eq_getElem]

/-! ### Well-formedness of all cluster sums -/

def WFSums (cs : List WorkingCluster) : Prop := ∀ c ∈ cs, WFVec c.vectorSum

theorem mem_updateAt {a : ClusterArticle} :
    ∀ (cs : List WorkingCluster) (i : Nat) (c' : WorkingCluster),
      c' ∈ updateAt cs i a → c' ∈ cs ∨
        ∃ c ∈ cs, c' = { members := c.members ++ [a],
                         vectorSum := addToVectorSum c.vectorSum a.vector } := by
  intro cs
  induction cs with
  | nil => intro i c' h; simp [updateAt] at h
  | cons c rest ih =>
      intro i c' h
      cases i with
      | zero =>
          rcases List.mem_cons.mp h with h1 | h1
          · exact Or.inr ⟨c, List.mem_cons_self _ _, h1⟩
          · exact Or.inl (List.mem_cons_of_mem _ h1)
      | succ i =>
          rcases List.mem_cons.mp h with h1 | h1
          · exact Or.inl (h1 ▸ List.mem_cons_self _ _)
          · rcases ih i c' h1 with h2 | ⟨c2, hc2, he⟩
            · exact Or.inl (List.mem_cons_of_mem _ h2)
            · exact Or.inr ⟨c2, List.mem_cons_of_mem _ hc2, he⟩

theorem wfSums_clusterStep {cs : List WorkingCluster} {a : ClusterArticle}
    (h : WFSums cs) (ha : WFVec a.vector) : WFSums (clusterStep cs a) := by
  show WFSums
    (if 0 ≤ (findBestClusterIndex a.vector cs).1 ∧
        simQThreshold ≤ (findBestClusterIndex a.vector cs).2 then
      updateAt cs (findBestClusterIndex a.vector cs).1.toNat a
    else cs ++ [{ members := [a], vectorSum := addToVectorSum [] a.vector }])
  split
  · intro c' hc'
    rcases mem_updateAt cs _ c' hc' with h1 | ⟨c, hc, he⟩
    · exact h c' h1
    · rw [he]
      exact wf_addToVectorSum (h c hc) ha.2
  · intro c' hc'
    rcases List.mem_append.mp hc' with h1 | h1
    · exact h c' h1
    · simp at h1
      rw [h1]
      exact wf_addToVectorSum ⟨List.nodup_nil, by simp⟩ ha.2

theorem wfSums_foldl :
    ∀ (arts : List ClusterArticle) (cs : List WorkingCluster), WFSums cs →
      (∀ a ∈ arts, WFVec a.vector) → WFSums (arts.foldl clusterStep cs) := by
  intro arts
  induction arts with
  | nil => intro cs h _; simpa using h
  | cons a rest ih =>
      intro cs h harts
      simp only [List.foldl_cons]
      exact ih _ (wfSums_clusterStep h (harts a (List.mem_cons_self _ _)))
        (fun a' ha' => harts a' (List.mem_cons_of_mem _ ha'))

/-! ### Cluster membership only grows -/

theorem mem_members_updateAt {a : ClusterArticle} :
    ∀ (cs : List WorkingCluster) (i j : Nat) (hj : j < cs.length)
      (x : ClusterArticle), x ∈ (cs.get ⟨j, hj⟩).members →
      x ∈ ((updateAt cs i a).get ⟨j, by rw [updateAt_length]; exact hj⟩).members := by
  intro cs
  induction cs with
  | nil => intro i j hj _ _; simp at hj
  | cons c rest ih =>
      intro i j hj x hx
      cases i with
      | zero =>
          cases j with
          | zero =>
              simp only [updateAt, List.get_cons_zero] at hx ⊢
              exact List.mem_append.mpr (Or.inl hx)
          | succ j => simpa [updateAt] using hx
      | succ i =>
          cases j with
          | zero => simpa [updateAt] using hx
          | succ j =>
              simp only [updateAt, List.get_cons_succ] at hx ⊢
              exact ih i j (Nat.lt_of_succ_lt_succ hj) x hx

theorem length_le_clusterStep (cs : List WorkingCluster) (a : ClusterArticle) :
    cs.length ≤ (clusterStep cs a).length := by
  show cs.length ≤ (if 0 ≤ (findBestClusterIndex a.vector cs).1 ∧
      simQThreshold ≤ (findBestClusterIndex a.vector cs).2 then
    updateAt cs (findBestClusterIndex a.vector cs).1.toNat a
  else cs ++ [{ members := [a], vectorSum := addToVectorSum [] a.vector }]).length
  split
  · rw [updateAt_length]
  · simp

/-- The two possible outcomes of one clusterer step. -/
theorem clusterStep_cases (cs : List WorkingCluster) (a : ClusterArticle) :
    (∃ i, i < cs.length ∧ clusterStep cs a = updateAt cs i a) ∨
    clusterStep cs a
      = cs ++ [{ members := [a], vectorSum := addToVectorSum [] a.vector }] := by
  rcases findBest_spec a.vector cs with ⟨heq, hall⟩ | ⟨jb, hjb, heq, hpos, hmaxb, hbefb⟩
  · right
    show (if 0 ≤ (findBestClusterIndex a.vector cs).1 ∧
        simQThreshold ≤ (findBestClusterIndex a.vector cs).2 then
      updateAt cs (findBestClusterIndex a.vector cs).1.toNat a
    else cs ++ [{ members := [a], vectorSum := addToVectorSum [] a.vector }]) = _
    rw [heq, if_neg]
    rintro ⟨h1, _⟩
    norm_num at h1
  · by_cases hthr : simQThreshold ≤ simQ a.vector ((cs.get ⟨jb, hjb⟩).vectorSum)
    · left
      refine ⟨jb, hjb, ?_⟩
      show (if 0 ≤ (findBestClusterIndex a.vector cs).1 ∧
          simQThreshold ≤ (findBestClusterIndex a.vector cs).2 then
        updateAt cs (findBestClusterIndex a.vector cs).1.toNat a
      else cs ++ [{ members := [a], vectorSum := addToVectorSum [] a.vector }]) = _
      rw [heq, if_pos ⟨by positivity, hthr⟩]
      simp
    · right
      show (if 0 ≤ (findBestClusterIndex a.vector cs).1 ∧
          simQThreshold ≤ (findBestClusterIndex a.vector cs).2 then
        updateAt cs (findBestClusterIndex a.vector cs).1.toNat a
      else cs ++ [{ members := [a], vectorSum := addToVectorSum [] a.vector }]) = _
      rw [heq, if_neg]
      rintro ⟨_, h2⟩
      exact hthr h2

theorem mem_members_clusterStep {cs : List WorkingCluster} {a : ClusterArticle}
    {j : Nat} (hj : j < cs.length) {x : ClusterArticle}
    (hx : x ∈ (cs.get ⟨j, hj⟩).members) :
    ∀ hj' : j < (clusterStep cs a).length,
      x ∈ ((clusterStep cs a).get ⟨j, hj'⟩).members := by
  rcases clusterStep_cases cs a with ⟨i, hi, hstep⟩ | hstep
  · rw [hstep]
    intro hj'
    exact mem_members_updateAt cs i j hj x hx
  · rw [hstep]
    intro hj'
    rw [get_append_singleton_left hj]
    exact hx

theorem mem_members_foldl {x : ClusterArticle} :
    ∀ (arts : List ClusterArticle) (cs : List WorkingCluster) (j : Nat)
      (hj : j < cs.length), x ∈ (cs.get ⟨j, hj⟩).members →
      ∃ hj' : j < (arts.foldl clusterStep cs).length,
        x ∈ ((arts.foldl clusterStep cs).get ⟨j, hj'⟩).members := by
  intro arts
  induction arts with
  | nil => intro cs j hj hx; exact ⟨hj, hx⟩
  | cons a rest ih =>
      intro cs j hj hx
      simp only [List.foldl_cons]
      have hj2 : j < (clusterStep cs a).length :=
        lt_of_lt_of_le hj (length_le_clusterStep cs a)
      exact ih (clusterStep cs a) j hj2 (mem_members_clusterStep hj hx hj2)

/-! ### Two identical adjacent articles join the same cluster -/

theorem adjacent_identical_new_case {cs0 : List WorkingCluster}
    {a a' : ClusterArticle} (hwa : WFVec a.vector) (hane : a.vector ≠ [])
    (heqv : a'.vector = a.vector)
    (hsims : ∀ j (hj : j < cs0.length),
      simQ a.vector ((cs0.get ⟨j, hj⟩).vectorSum) < simQThreshold) :
    ∃ i, ∃ hi : i < (clusterStep (clusterStep cs0 a) a').length,
      a ∈ ((clusterStep (clusterStep cs0 a) a').get ⟨i, hi⟩).members ∧
      a' ∈ ((clusterStep (clusterStep cs0 a) a').get ⟨i, hi⟩).members := by
  have hnil : addToVectorSum [] a.vector = a.vector := addToVectorSum_nil hwa.1
  set cNew : WorkingCluster := { members := [a], vectorSum := a.vector } with hcNew
  set cs1 : List WorkingCluster := cs0 ++ [cNew] with hcs1
  have hstep1 : clusterStep cs0 a = cs1 := by
    rw [clusterStep_eq_append hsims, hcs1, hcNew, hnil]
  have hlen : cs0.length < cs1.length := by simp [hcs1]
  have hgetlast : cs1.get ⟨cs0.length, hlen⟩ = cNew := get_append_singleton_last
  have hsim_i : simQ a'.vector ((cs1.get ⟨cs0.length, hlen⟩).vectorSum) = 1 := by
    rw [hgetlast, heqv]
    exact simQ_self hwa hane
  have hmax : ∀ j' (hj' : j' < cs1.length),
      simQ a'.vector ((cs1.get ⟨j', hj'⟩).vectorSum)
        ≤ simQ a'.vector ((cs1.get ⟨cs0.length, hlen⟩).vectorSum) := by
    intro j' hj'
    rw [hsim_i]
    by_cases hcase : j' < cs0.length
    · rw [show cs1.get ⟨j', hj'⟩ = cs0.get ⟨j', hcase⟩ from
        get_append_singleton_left hcase, heqv]
      exact le_of_lt (lt_of_lt_of_le (hsims j' hcase) (by norm_num [simQThreshold]))
    · have hj0 : j' = cs0.length := by
        have : j' < cs0.length + 1 := by simpa [hcs1] using hj'
        omega
      subst hj0
      rw [hgetlast, heqv, simQ_self hwa hane]
  have hbef : ∀ j' (hj' : j' < cs1.length), j' < cs0.length →
      simQ a'.vector ((cs1.get ⟨j', hj'⟩).vectorSum)
        < simQ a'.vector ((cs1.get ⟨cs0.length, hlen⟩).vectorSum) := by
    intro j' hj' hlt
    rw [hsim_i, show cs1.get ⟨j', hj'⟩ = cs0.get ⟨j', hlt⟩ from
      get_append_singleton_left hlt, heqv]
    exact lt_of_lt_of_le (hsims j' hlt) (by norm_num [simQThreshold])
  have hthr : simQThreshold
      ≤ simQ a'.vector ((cs1.get ⟨cs0.length, hlen⟩).vectorSum) := by
    rw [hsim_i]
    norm_num [simQThreshold]
  have hstep2 : clusterStep cs1 a' = updateAt cs1 cs0.length a' :=
    clusterStep_eq_updateAt hlen hmax hbef hthr
  rw [hstep1, hstep2]
  refine ⟨cs0.length, by rw [updateAt_length]; exact hlen, ?_⟩
  rw [get_updateAt_self _ _ hlen, hgetlast]
  constructor
  · exact List.mem_append.mpr (Or.inl (List.mem_cons_self _ _))
  · exact List.mem_append.mpr (Or.inr (List.mem_cons_self _ _))

theorem adjacent_identical_join_case {cs0 : List WorkingCluster}
    {a a' : ClusterArticle} (hwf0 : WFSums cs0) (hwa : WFVec a.vector)
    (hane : a.vector ≠ []) (heqv : a'.vector = a.vector) {jb : Nat}
    (hjb : jb < cs0.length)
    (hmaxb : ∀ j' (hj' : j' < cs0.length),
      simQ a.vector ((cs0.get ⟨j', hj'⟩).vectorSum)
        ≤ simQ a.vector ((cs0.get ⟨jb, hjb⟩).vectorSum))
    (hbefb : ∀ j' (hj' : j' < cs0.length), j' < jb →
      simQ a.vector ((cs0.get ⟨j', hj'⟩).vectorSum)
        < simQ a.vector ((cs0.get ⟨jb, hjb⟩).vectorSum))
    (hthr : simQThreshold ≤ simQ a.vector ((cs0.get ⟨jb, hjb⟩).vectorSum)) :
    ∃ i, ∃ hi : i < (clusterStep (clusterStep cs0 a) a').length,
      a ∈ ((clusterStep (clusterStep cs0 a) a').get ⟨i, hi⟩).members ∧
      a' ∈ ((clusterStep (clusterStep cs0 a) a').get ⟨i, hi⟩).members := by
  have hstep1 : clusterStep cs0 a = updateAt cs0 jb a :=
    clusterStep_eq_updateAt hjb hmaxb hbefb hthr
  have hjb1 : jb < (updateAt cs0 jb a).length := by
    rw [updateAt_length]
    exact hjb
  have hget_jb : (updateAt cs0 jb a).get ⟨jb, hjb1⟩
      = { members := (cs0.get ⟨jb, hjb⟩).members ++ [a],
          vectorSum := addToVectorSum ((cs0.get ⟨jb, hjb⟩).vectorSum) a.vector } :=
    get_updateAt_self cs0 jb hjb
  have hS_wf : WFVec ((cs0.get ⟨jb, hjb⟩).vectorSum) :=
    hwf0 _ (List.get_mem cs0 jb hjb)
  have hmono : simQ a.vector ((cs0.get ⟨jb, hjb⟩).vectorSum)
      ≤ simQ a.vector ((updateAt cs0 jb a).get ⟨jb, hjb1⟩).vectorSum := by
    rw [hget_jb]
    exact simQ_add_self_ge hwa hane hS_wf
  have hmax : ∀ j' (hj' : j' < (updateAt cs0 jb a).length),
      simQ a'.vector (((updateAt cs0 jb a).get ⟨j', hj'⟩).vectorSum)
        ≤ simQ a'.vector (((updateAt cs0 jb a).get ⟨jb, hjb1⟩).vectorSum) := by
    intro j' hj'
    by_cases hc : j' = jb
    · subst hc
      exact le_refl _
    · have hj'0 : j' < cs0.length := by rwa [updateAt_length] at hj'
      rw [show (updateAt cs0 jb a).get ⟨j', hj'⟩ = cs0.get ⟨j', hj'0⟩ from
        get_updateAt_other cs0 jb j' hj'0 hc, heqv]
      exact le_trans (hmaxb j' hj'0) hmono
  have hbef : ∀ j' (hj' : j' < (updateAt cs0 jb a).length), j' < jb →
      simQ a'.vector (((updateAt cs0 jb a).get ⟨j', hj'⟩).vectorSum)
        < simQ a'.vector (((updateAt cs0 jb a).get ⟨jb, hjb1⟩).vectorSum) := by
    intro j' hj' hlt
    have hj'0 : j' < cs0.length := by rwa [updateAt_length] at hj'
    rw [show (updateAt cs0 jb a).get ⟨j', hj'⟩ = cs0.get ⟨j', hj'0⟩ from
      get_updateAt_other cs0 jb j' hj'0 (by omega), heqv]
    exact lt_of_lt_of_le (hbefb j' hj'0 hlt) hmono
  have hthr' : simQThreshold
      ≤ simQ a'.vector (((updateAt cs0 jb a).get ⟨jb, hjb1⟩).vectorSum) := by
    rw [heqv]
    exact le_trans hthr hmono
  have hstep2 : clusterStep (updateAt cs0 jb a) a' = updateAt (updateAt cs0 jb a) jb a' :=
    clusterStep_eq_updateAt hjb1 hmax hbef hthr'
  rw [hstep1, hstep2]
  refine ⟨jb, by rw [updateAt_length]; exact hjb1, ?_⟩
  rw [get_updateAt_self _ _ hjb1, hget_jb]
  constructor
  · exact List.mem_append.mpr (Or.inl (List.mem_append.mpr (Or.inr
      (List.mem_cons_self _ _))))
  · exact List.mem_append.mpr (Or.inr (List.mem_cons_self _ _))

/-- Processing two articles with the same (non-empty, well-formed) vector in
immediate succession puts them into the same cluster. -/
theorem adjacent_identical_same_cluster {cs0 : List WorkingCluster}
    {a a' : ClusterArticle} (hwf0 : WFSums cs0) (hwa : WFVec a.vector)
    (hane : a.vector ≠ []) (heqv : a'.vector = a.vector) :
    ∃ i, ∃ hi : i < (clusterStep (clusterStep cs0 a) a').length,
      a ∈ ((clusterStep (clusterStep cs0 a) a').get ⟨i, hi⟩).members ∧
      a' ∈ ((clusterStep (clusterStep cs0 a) a').get ⟨i, hi⟩).members := by
  rcases findBest_spec a.vector cs0 with ⟨heq0, hall⟩ | ⟨jb, hjb, heq0, hpos, hmaxb, hbefb⟩
  · apply adjacent_identical_new_case hwa hane heqv
    intro j hj
    exact lt_of_le_of_lt (hall j hj) (by norm_num [simQThreshold])
  · by_cases hthr : simQThreshold ≤ simQ a.vector ((cs0.get ⟨jb, hjb⟩).vectorSum)
    · exact adjacent_identical_join_case hwf0 hwa hane heqv hjb hmaxb hbefb hthr
    · apply adjacent_identical_new_case hwa hane heqv
      intro j hj
      exact lt_of_le_of_lt (hmaxb j hj) (not_le.mp hthr)

/-- Evaluation form of `simQ` at concrete inputs. -/
theorem simQ_concrete {a b : TokenVector} {d n m : ℕ} (hab : ¬(a = [] ∨ b = []))
    (hd : dotProd a b = d) (hn : normSq a = n) (hm : normSq b = m)
    (hn0 : n ≠ 0) (hm0 : m ≠ 0) :
    simQ a b = (d : ℚ) ^ 2 / ((n : ℚ) * (m : ℚ)) := by
  unfold simQ
  rw [if_neg hab, if_neg (by omega), hd, hn, hm]

/--
**C6 (counterexample)**: the claim fails on the code in two ways.  Two
articles titled "The" have identical normalized text, but their token
vectors are empty, so their cosine similarity is 0 (not 1.0) and the
clusterer puts them into two separate singleton clusters.  And even with
non-empty vectors, two articles with identical normalized text "aa" are
separated when other articles drag the cluster's accumulated vector away:
in the input `["aa", "aa bb bb", "bb"×20, "aa"]` the first and last article
end up in different clusters.
-/
theorem C6_counterexample :
    (cosineSimilarity (toVector (normalizeText "The" none))
        (toVector (normalizeText "The" none)) = 0 ∧
      (buildWorkingClusters
        [⟨"t1", "The", none, none, toVector (normalizeText "The" none)⟩,
         ⟨"t2", "The", none, none, toVector (normalizeText "The" none)⟩]).length = 2) ∧
    ¬(∃ c ∈ buildWorkingClusters
        [⟨"x", "aa", none, none, toVector (normalizeText "aa" none)⟩,
         ⟨"y", "aa bb bb", none, none, toVector (normalizeText "aa bb bb" none)⟩,
         ⟨"z", "bb bb bb bb bb bb bb bb bb bb bb bb bb bb bb bb bb bb bb bb", none,
          none, toVector (normalizeText
            "bb bb bb bb bb bb bb bb bb bb bb bb bb bb bb bb bb bb bb bb" none)⟩,
         ⟨"x2", "aa", none, none, toVector (normalizeText "aa" none)⟩],
      (⟨"x", "aa", none, none, toVector (normalizeText "aa" none)⟩ : ClusterArticle)
          ∈ c.members ∧
        (⟨"x2", "aa", none, none, toVector (normalizeText "aa" none)⟩ : ClusterArticle)
          ∈ c.members) := by
  have hthe : toVector (normalizeText "The" none) = [] := by decide
  have haa : toVector (normalizeText "aa" none) = [("aa", 1)] := by decide
  have haabb : toVector (normalizeText "aa bb bb" none) = [("aa", 1), ("bb", 2)] := by
    decide
  have hbbs : toVector (normalizeText
      "bb bb bb bb bb bb bb bb bb bb bb bb bb bb bb bb bb bb bb bb" none)
      = [("bb", 20)] := by decide
  refine ⟨⟨?_, ?_⟩, ?_⟩
  · rw [hthe]
    exact cosineSimilarity_zero (Or.inl rfl)
  · simp only [hthe]
    decide
  · simp only [haa, haabb, hbbs]
    have h1 : clusterStep []
        (⟨"x", "aa", none, none, [("aa", 1)]⟩ : ClusterArticle)
        = [⟨[⟨"x", "aa", none, none, [("aa", 1)]⟩], [("aa", 1)]⟩] := by
      rw [clusterStep_eq_append (by intro j hj; simp at hj)]
      decide
    have h2 : clusterStep [⟨[⟨"x", "aa", none, none, [("aa", 1)]⟩], [("aa", 1)]⟩]
        (⟨"y", "aa bb bb", none, none, [("aa", 1), ("bb", 2)]⟩ : ClusterArticle)
        = [⟨[⟨"x", "aa", none, none, [("aa", 1)]⟩,
             ⟨"y", "aa bb bb", none, none, [("aa", 1), ("bb", 2)]⟩],
            [("aa", 2), ("bb", 2)]⟩] := by
      rw [clusterStep_eq_updateAt (j := 0) (by simp) ?_ ?_ ?_]
      · decide
      · intro j' hj'
        have hj1 : j' < 1 := by simpa using hj'
        have hj0 : j' = 0 := by omega
        subst hj0
        exact le_refl _
      · intro j' hj' h
        omega
      · show simQThreshold ≤ simQ [("aa", 1), ("bb", 2)] [("aa", 1)]
        rw [simQ_concrete (d := 1) (n := 5) (m := 1) (by decide) (by decide)
          (by decide) (by decide) (by decide) (by decide)]
        norm_num [simQThreshold]
    have h3 : clusterStep [⟨[⟨"x", "aa", none, none, [("aa", 1)]⟩,
          ⟨"y", "aa bb bb", none, none, [("aa", 1), ("bb", 2)]⟩],
          [("aa", 2), ("bb", 2)]⟩]
        (⟨"z", "bb bb bb bb bb bb bb bb bb bb bb bb bb bb bb bb bb bb bb bb", none,
          none, [("bb", 20)]⟩ : ClusterArticle)
        = [⟨[⟨"x", "aa", none, none, [("aa", 1)]⟩,
             ⟨"y", "aa bb bb", none, none, [("aa", 1), ("bb", 2)]⟩,
             ⟨"z", "bb bb bb bb bb bb bb bb bb bb bb bb bb bb bb bb bb bb bb bb",
              none, none, [("bb", 20)]⟩],
            [("aa", 2), ("bb", 22)]⟩] := by
      rw [clusterStep_eq_updateAt (j := 0) (by simp) ?_ ?_ ?_]
      · decide
      · intro j' hj'
        have hj1 : j' < 1 := by simpa using hj'
        have hj0 : j' = 0 := by omega
        subst hj0
        exact le_refl _
      · intro j' hj' h
        omega
      · show simQThreshold ≤ simQ [("bb", 20)] [("aa", 2), ("bb", 2)]
        rw [simQ_concrete (d := 40) (n := 400) (m := 8) (by decide) (by decide)
          (by decide) (by decide) (by decide) (by decide)]
        norm_num [simQThreshold]
    have h4 : clusterStep [⟨[⟨"x", "aa", none, none, [("aa", 1)]⟩,
          ⟨"y", "aa bb bb", none, none, [("aa", 1), ("bb", 2)]⟩,
          ⟨"z", "bb bb bb bb bb bb bb bb bb bb bb bb bb bb bb bb bb bb bb bb",
           none, none, [("bb", 20)]⟩],
          [("aa", 2), ("bb", 22)]⟩]
        (⟨"x2", "aa", none, none, [("aa", 1)]⟩ : ClusterArticle)
        = [⟨[⟨"x", "aa", none, none, [("aa", 1)]⟩,
             ⟨"y", "aa bb bb", none, none, [("aa", 1), ("bb", 2)]⟩,
             ⟨"z", "bb bb bb bb bb bb bb bb bb bb bb bb bb bb bb bb bb bb bb bb",
              none, none, [("bb", 20)]⟩],
            [("aa", 2), ("bb", 22)]⟩,
           ⟨[⟨"x2", "aa", none, none, [("aa", 1)]⟩], [("aa", 1)]⟩] := by
      rw [clusterStep_eq_append ?_]
      · decide
      · intro j hj
        have hj1 : j < 1 := by simpa using hj
        have hj0 : j = 0 := by omega
        subst hj0
        show simQ [("aa", 1)] [("aa", 2), ("bb", 22)] < simQThreshold
        rw [simQ_concrete (d := 2) (n := 1) (m := 488) (by decide) (by decide)
          (by decide) (by decide) (by decide) (by decide)]
        norm_num [simQThreshold]
    have hfull : buildWorkingClusters
        [⟨"x", "aa", none, none, [("aa", 1)]⟩,
         ⟨"y", "aa bb bb", none, none, [("aa", 1), ("bb", 2)]⟩,
         ⟨"z", "bb bb bb bb bb bb bb bb bb bb bb bb bb bb bb bb bb bb bb bb", none,
          none, [("bb", 20)]⟩,
         ⟨"x2", "aa", none, none, [("aa", 1)]⟩]
        = [⟨[⟨"x", "aa", none, none, [("aa", 1)]⟩,
             ⟨"y", "aa bb bb", none, none, [("aa", 1), ("bb", 2)]⟩,
             ⟨"z", "bb bb bb bb bb bb bb bb bb bb bb bb bb bb bb bb bb bb bb bb",
              none, none, [("bb", 20)]⟩],
            [("aa", 2), ("bb", 22)]⟩,
           ⟨[⟨"x2", "aa", none, none, [("aa", 1)]⟩], [("aa", 1)]⟩] := by
      show (clusterStep (clusterStep (clusterStep (clusterStep []
        (⟨"x", "aa", none, none, [("aa", 1)]⟩ : ClusterArticle))
        (⟨"y", "aa bb bb", none, none, [("aa", 1), ("bb", 2)]⟩ : ClusterArticle))
        (⟨"z", "bb bb bb bb bb bb bb bb bb bb bb bb bb bb bb bb bb bb bb bb", none,
          none, [("bb", 20)]⟩ : ClusterArticle))
        (⟨"x2", "aa", none, none, [("aa", 1)]⟩ : ClusterArticle)) = _
      rw [h1, h2, h3, h4]
    simp only [hfull]
    decide

/--
**C6 (amended)**: for every pair of articles whose normalized text is
identical *and yields a non-empty token vector*, their cosine similarity is
1.0; and whenever the two articles occupy *consecutive positions* of the
input sequence (with arbitrary well-formed articles before and after), the
incremental clusterer places them in the same `WorkingCluster`.  (With an
empty token vector the similarity is 0; with other articles between the two
they can be separated — see the counterexample.)
-/
theorem C6_identical_text_amended :
    (∀ t : List Char, toVector t ≠ [] →
      cosineSimilarity (toVector t) (toVector t) = 1) ∧
    (∀ (pre post : List ClusterArticle) (a a' : ClusterArticle),
      (∀ b ∈ pre, WFVec b.vector) → WFVec a.vector → a.vector ≠ [] →
      a'.vector = a.vector →
      ∃ i, ∃ hi : i < (buildWorkingClusters (pre ++ a :: a' :: post)).length,
        a ∈ ((buildWorkingClusters (pre ++ a :: a' :: post)).get ⟨i, hi⟩).members ∧
        a' ∈ ((buildWorkingClusters (pre ++ a :: a' :: post)).get ⟨i, hi⟩).members) := by
  constructor
  · intro t h
    exact cosineSimilarity_self (wf_toVector t) h
  · intro pre post a a' hpre hwa hane heqv
    have hb : buildWorkingClusters (pre ++ a :: a' :: post)
        = post.foldl clusterStep
            (clusterStep (clusterStep (buildWorkingClusters pre) a) a') := by
      unfold buildWorkingClusters
      rw [List.foldl_append]
      rfl
    have hwf0 : WFSums (buildWorkingClusters pre) :=
      wfSums_foldl pre [] (by intro c hc; simp at hc) hpre
    rcases adjacent_identical_same_cluster hwf0 hwa hane heqv with ⟨i, hi, hxa, hxa'⟩
    rcases mem_members_foldl post _ i hi hxa with ⟨hi1, ha1⟩
    have ha2 := (mem_members_foldl post _ i hi hxa').2
    rw [hb]
    exact ⟨i, hi1, ha1, ha2⟩

/-- Witness for the amended C6 on a concrete two-article input. -/
theorem C6_witness :
    ∃ i, ∃ hi : i < (buildWorkingClusters
      ([] ++ (⟨"w1", "fed", none, none, [("fed", 1)]⟩ : ClusterArticle)
        :: (⟨"w2", "fed", none, none, [("fed", 1)]⟩ : ClusterArticle) :: [])).length,
      (⟨"w1", "fed", none, none, [("fed", 1)]⟩ : ClusterArticle)
          ∈ ((buildWorkingClusters
        ([] ++ (⟨"w1", "fed", none, none, [("fed", 1)]⟩ : ClusterArticle)
          :: (⟨"w2", "fed", none, none, [("fed", 1)]⟩ : ClusterArticle) :: [])).get
          ⟨i, hi⟩).members ∧
        (⟨"w2", "fed", none, none, [("fed", 1)]⟩ : ClusterArticle)
          ∈ ((buildWorkingClusters
        ([] ++ (⟨"w1", "fed", none, none, [("fed", 1)]⟩ : ClusterArticle)
          :: (⟨"w2", "fed", none, none, [("fed", 1)]⟩ : ClusterArticle) :: [])).get
          ⟨i, hi⟩).members :=
  C6_identical_text_amended.2 [] [] _ _ (by intro b hb; simp at hb)
    ⟨by unfold NodupKeys tvKeys; decide, by decide⟩ (by decide) rfl

/-! ### Ranker (`src/app/api/admin/rank/route.ts`)

The relational store is modelled as lists of rows; timestamps are UTC epoch
milliseconds (`Int`), with the window given by its start `startMs` (midnight
UTC of the window date) so `end = start + 86400000` and
`recencyStart = end - 6*3600000`, as computed by `toWindowBoundsUtc`.
JS `Map`s built by insertion (`articlesById`, `sourceNameById`) are modelled
as last-wins lookups.  `Array.prototype.sort` is modelled as a sort that is
correct for the comparator's preorder (sortedness and permutation are all
the spec relies on). -/

structure RankArticleRow where
  id : String
  publisher : Option String
  publishedAt : Option Int
  sourceId : Option String
  title : String
deriving DecidableEq, Repr

structure StoryClusterRow where
  id : String
  windowDate : String
  label : Option String
  score : ℚ
deriving DecidableEq, Repr

structure MembershipRow where
  clusterId : String
  articleId : String
deriving DecidableEq, Repr

structure FeedSourceRow where
  id : String
  name : String
deriving DecidableEq, Repr

structure CandidateRow where
  id : Nat
  windowDate : String
  clusterId : String
  rank : Nat
deriving DecidableEq, Repr

structure RankState where
  storyClusters : List StoryClusterRow
  clusterArticles : List MembershipRow
  articles : List RankArticleRow
  feedSources : List FeedSourceRow
  candidates : List CandidateRow
deriving Repr

/-- JS `String.prototype.trim`: strip leading and trailing whitespace. -/
def jsTrim (s : String) : String :=
  ⟨((s.data.dropWhile Char.isWhitespace).reverse.dropWhile
      Char.isWhitespace).reverse⟩

/-- `publisherName` from the rank route: article publisher (trimmed, if
non-empty), else the source's name (trimmed, if non-empty), else the
literal fallback. -/
def publisherFromSource (article : RankArticleRow)
    (sourceNameById : String → Option String) : String :=
  match article.sourceId with
  | some sid =>
      if sid ≠ "" then
        match (sourceNameById sid).map jsTrim with
        | some n => if n ≠ "" then n else "Unknown Publisher"
        | none => "Unknown Publisher"
      else "Unknown Publisher"
  | none => "Unknown Publisher"

def publisherName (article : RankArticleRow)
    (sourceNameById : String → Option String) : String :=
  match article.publisher.map jsTrim with
  | some p => if p ≠ "" then p else publisherFromSource article sourceNameById
  | none => publisherFromSource article sourceNameById

/-- `Number(x.toFixed(4))`: round to 4 decimal places (ties away from zero;
every score is a nonnegative multiple of 1/2, so the tie rule never fires). -/
def round4 (q : ℚ) : ℚ := (round (q * 10000) : ℤ) / 10000

structure RankedCluster where
  clusterId : String
  label : String
  score : ℚ
  volume : Nat
  breadth : Nat
  recency : Nat
  topPublishers : List (String × Nat)
deriving DecidableEq, Repr

/-- The comparator `(a, b) => b.score - a.score || b.volume - a.volume` as a
total preorder: `a` sorts no later than `b`. -/
def rankedBefore (a b : RankedCluster) : Prop :=
  b.score < a.score ∨ (a.score = b.score ∧ b.volume ≤ a.volume)

instance : DecidableRel rankedBefore := fun a b => by
  unfold rankedBefore
  infer_instance

instance : IsTotal RankedCluster rankedBefore where
  total a b := by
    unfold rankedBefore
    rcases lt_trichotomy a.score b.score with h | h | h
    · exact Or.inr (Or.inl h)
    · rcases le_total b.volume a.volume with h2 | h2
      · exact Or.inl (Or.inr ⟨h, h2⟩)
      · exact Or.inr (Or.inr ⟨h.symm, h2⟩)
    · exact Or.inl (Or.inl h)

instance : IsTrans RankedCluster rankedBefore where
  trans a b c hab hbc := by
    unfold rankedBefore at *
    rcases hab with h1 | ⟨h1, h1'⟩ <;> rcases hbc with h2 | ⟨h2, h2'⟩
    · exact Or.inl (lt_trans h2 h1)
    · exact Or.inl (h2 ▸ h1)
    · exact Or.inl (lt_of_lt_of_le h2 (le_of_eq h1.symm))
    · exact Or.inr ⟨h1.trans h2, le_trans h2' h1'⟩

/-- Statistics and label for one cluster, as computed in the loop body of
`rankClusters`. -/
def clusterStats (memberships : List MembershipRow)
    (articlesById : String → Option RankArticleRow)
    (sourceNameById : String → Option String)
    (recencyStart dayEnd : Int) (cluster : StoryClusterRow) : RankedCluster :=
  let members := memberships.filter (fun m => m.clusterId = cluster.id)
  let articles := members.filterMap (fun m => articlesById m.articleId)
  let volume := articles.length
  let pubs := articles.map (fun a => publisherName a sourceNameById)
  let breadth := pubs.dedup.length
  let recency := articles.countP (fun a =>
    match a.publishedAt with
    | some t => decide (recencyStart ≤ t ∧ t < dayEnd)
    | none => false)
  let score := round4 ((breadth : ℚ) * 3 + (volume : ℚ) + (recency : ℚ) * (1/2))
  let topPublishers :=
    ((pubs.dedup.map (fun p => (p, pubs.count p))).insertionSort
      (fun x y => y.2 ≤ x.2)).take 5
  let fallbackLabel := match articles.head? with
    | some a => a.title
    | none => "Unlabeled cluster"
  let label := match cluster.label.map jsTrim with
    | some l => if l ≠ "" then l else fallbackLabel
    | none => fallbackLabel
  { clusterId := cluster.id, label := label, score := score, volume := volume,
    breadth := breadth, recency := recency, topPublishers := topPublishers }

/-- `rankClusters` from the rank route: stats per cluster, then sort
descending by score with ties broken by descending volume. -/
def rankClusters (clusters : List StoryClusterRow)
    (memberships : List MembershipRow)
    (articlesById : String → Option RankArticleRow)
    (sourceNameById : String → Option String)
    (recencyStart dayEnd : Int) : List RankedCluster :=
  (clusters.map
      (clusterStats memberships articlesById sourceNameById recencyStart dayEnd)
    ).insertionSort rankedBefore

def TOP_LIMIT : Nat := 30

structure RankTopEntry where
  rank : Nat
  label : String
  score : ℚ
  volume : Nat
  breadth : Nat
  recency : Nat
  topPublishers : List (String × Nat)
deriving DecidableEq, Repr

structure RankResult where
  windowDate : String
  clustersConsidered : Nat
  candidatesSaved : Nat
  top : List RankTopEntry
deriving DecidableEq, Repr

/-- All clusters of the window (`story_clusters` filtered by window date). -/
def windowClusters (st : RankState) (windowDate : String) : List StoryClusterRow :=
  st.storyClusters.filter (fun c => c.windowDate = windowDate)

/-- All memberships of the window's clusters. -/
def windowMemberships (st : RankState) (windowDate : String) : List MembershipRow :=
  st.clusterArticles.filter
    (fun m => m.clusterId ∈ (windowClusters st windowDate).map (fun c => c.id))

/-- The member articles fetched with the window-boundary filter
(`published_at ∈ [start, end)`), keyed by id (last row wins, as for a JS
`Map` built by insertion). -/
def windowArticlesFiltered (st : RankState) (windowDate : String)
    (startMs : Int) : List RankArticleRow :=
  st.articles.filter (fun a =>
    decide (a.id ∈ ((windowMemberships st windowDate).map
      (fun m => m.articleId)).dedup) &&
      match a.publishedAt with
      | some t => decide (startMs ≤ t ∧ t < startMs + 86400000)
      | none => false)

def windowArticlesById (st : RankState) (windowDate : String) (startMs : Int) :
    String → Option RankArticleRow := fun aid =>
  (windowArticlesFiltered st windowDate startMs).reverse.find?
    (fun a => a.id = aid)

def windowSourceNameById (st : RankState) (windowDate : String) (startMs : Int) :
    String → Option String := fun sid =>
  let sourceIds : List String :=
    (((windowArticlesFiltered st windowDate startMs).filterMap
      (fun a => a.sourceId)).filter (fun s => s ≠ "")).dedup
  ((st.feedSources.filter (fun s => s.id ∈ sourceIds)).reverse.find?
    (fun s => s.id = sid)).map (fun s => s.name)

/-- The non-empty branch of `rankClustersForWindowDate`: score, sort, write
back scores, clear prior candidates, insert the new top-30 snapshot. -/
def rankRunWithClusters (st : RankState) (windowDate : String) (startMs : Int)
    (nextId : Nat) : RankResult × RankState :=
  let dayEnd := startMs + 86400000
  let recencyStart := dayEnd - 21600000
  let ranked := rankClusters (windowClusters st windowDate)
    (windowMemberships st windowDate) (windowArticlesById st windowDate startMs)
    (windowSourceNameById st windowDate startMs) recencyStart dayEnd
  let updatedClusters := st.storyClusters.map (fun c =>
    match ranked.find? (fun r => r.clusterId = c.id) with
    | some r =>
        { c with
          windowDate := windowDate
          label := some r.label
          score := r.score }
    | none => c)
  let top := ranked.take TOP_LIMIT
  let keptCandidates := st.candidates.filter
    (fun r => r.windowDate ≠ windowDate)
  let newCandidates := top.mapIdx (fun i r =>
    ({ id := nextId + i, windowDate := windowDate, clusterId := r.clusterId,
       rank := i + 1 } : CandidateRow))
  ({ windowDate := windowDate, clustersConsidered := ranked.length,
     candidatesSaved := top.length,
     top := top.mapIdx (fun i r =>
      { rank := i + 1, label := r.label, score := r.score, volume := r.volume,
        breadth := r.breadth, recency := r.recency,
        topPublishers := r.topPublishers }) },
   { st with storyClusters := updatedClusters,
             candidates := keptCandidates ++ newCandidates })

/-- `rankClustersForWindowDate` from the rank route, over the state model.
`startMs` is the UTC-midnight timestamp of `windowDate`; `nextId` supplies
the store-generated ids of the inserted candidate rows.  When the window has
no clusters, prior candidates are still cleared and an empty result is
returned. -/
def rankClustersForWindowDate (st : RankState) (windowDate : String)
    (startMs : Int) (nextId : Nat) : RankResult × RankState :=
  if (windowClusters st windowDate).length = 0 then
    ({ windowDate := windowDate, clustersConsidered := 0, candidatesSaved := 0,
       top := [] },
     { st with candidates :=
        (st.candidates.filter (fun r => r.windowDate ≠ windowDate)) })
  else rankRunWithClusters st windowDate startMs nextId

theorem length_filterMap_eq_countP {α β : Type} (f : α → Option β) (l : List α) :
    (l.filterMap f).length = l.countP (fun x => (f x).isSome) := by
  induction l with
  | nil => simp
  | cons a rest ih =>
      by_cases h : (f a).isSome
      · rcases Option.isSome_iff_exists.mp h with ⟨b, hb⟩
        simp [List.filterMap_cons, hb, List.countP_cons, ih]
      · rw [Option.not_isSome_iff_eq_none] at h
        simp [List.filterMap_cons, h, List.countP_cons, ih]

/--
**C1**: for every window, the Ranker computes each cluster's score as
`round4(breadth * 3 + volume + recency * 0.5)`, where volume is the member
count after the window-boundary filter, breadth the number of distinct
resolved publisher names, and recency the count of members published within
the last 6 hours before the window's end; the scored list is sorted
descending by score with ties broken by descending volume, and the first 30
entries (or all, if fewer) are assigned dense 1-based ranks after all prior
candidates for the window are deleted.
-/
theorem C1_ranker_score_sort_rank (st : RankState) (w : String) (startMs : Int)
    (nextId : Nat) :
    ∃ L : List RankedCluster,
      L.Perm ((windowClusters st w).map
        (clusterStats (windowMemberships st w) (windowArticlesById st w startMs)
          (windowSourceNameById st w startMs) (startMs + 86400000 - 21600000)
          (startMs + 86400000))) ∧
      List.Sorted rankedBefore L ∧
      (∀ c ∈ windowClusters st w,
        (clusterStats (windowMemberships st w) (windowArticlesById st w startMs)
          (windowSourceNameById st w startMs) (startMs + 86400000 - 21600000)
          (startMs + 86400000) c).volume
          = ((windowMemberships st w).filter (fun m => m.clusterId = c.id)).countP
            (fun m => (windowArticlesById st w startMs m.articleId).isSome) ∧
        (clusterStats (windowMemberships st w) (windowArticlesById st w startMs)
          (windowSourceNameById st w startMs) (startMs + 86400000 - 21600000)
          (startMs + 86400000) c).breadth
          = ((((windowMemberships st w).filter
              (fun m => m.clusterId = c.id)).filterMap
                (fun m => windowArticlesById st w startMs m.articleId)).map
            (fun a => publisherName a (windowSourceNameById st w startMs))
            ).toFinset.card ∧
        (clusterStats (windowMemberships st w) (windowArticlesById st w startMs)
          (windowSourceNameById st w startMs) (startMs + 86400000 - 21600000)
          (startMs + 86400000) c).recency
          = (((windowMemberships st w).filter
              (fun m => m.clusterId = c.id)).filterMap
                (fun m => windowArticlesById st w startMs m.articleId)).countP
            (fun a => match a.publishedAt with
              | some t => decide (startMs + 86400000 - 21600000 ≤ t ∧
                  t < startMs + 86400000)
              | none => false) ∧
        (clusterStats (windowMemberships st w) (windowArticlesById st w startMs)
          (windowSourceNameById st w startMs) (startMs + 86400000 - 21600000)
          (startMs + 86400000) c).score
          = round4 (((clusterStats (windowMemberships st w)
              (windowArticlesById st w startMs)
              (windowSourceNameById st w startMs)
              (startMs + 86400000 - 21600000) (startMs + 86400000) c).breadth : ℚ)
              * 3
            + ((clusterStats (windowMemberships st w)
              (windowArticlesById st w startMs)
              (windowSourceNameById st w startMs)
              (startMs + 86400000 - 21600000) (startMs + 86400000) c).volume : ℚ)
            + ((clusterStats (windowMemberships st w)
              (windowArticlesById st w startMs)
              (windowSourceNameById st w startMs)
              (startMs + 86400000 - 21600000) (startMs + 86400000) c).recency : ℚ)
              * (1/2))) ∧
      (rankClustersForWindowDate st w startMs nextId).1.top
        = (L.take 30).mapIdx (fun i r =>
          { rank := i + 1, label := r.label, score := r.score, volume := r.volume,
            breadth := r.breadth, recency := r.recency,
            topPublishers := r.topPublishers }) ∧
      (rankClustersForWindowDate st w startMs nextId).2.candidates
        = st.candidates.filter (fun r => r.windowDate ≠ w)
          ++ (L.take 30).mapIdx (fun i r =>
            ({ id := nextId + i, windowDate := w, clusterId := r.clusterId,
               rank := i + 1 } : CandidateRow)) ∧
      (rankClustersForWindowDate st w startMs nextId).1.clustersConsidered
        = L.length ∧
      (rankClustersForWindowDate st w startMs nextId).1.candidatesSaved
        = min 30 L.length := by
  refine ⟨rankClusters (windowClusters st w) (windowMemberships st w)
    (windowArticlesById st w startMs) (windowSourceNameById st w startMs)
    (startMs + 86400000 - 21600000) (startMs + 86400000),
    List.perm_insertionSort _ _, List.sorted_insertionSort _ _, ?_, ?_⟩
  · intro c hc
    refine ⟨?_, ?_, rfl, rfl⟩
    · show (((windowMemberships st w).filter
          (fun m => m.clusterId = c.id)).filterMap
            (fun m => windowArticlesById st w startMs m.articleId)).length = _
      exact length_filterMap_eq_countP _ _
    · show ((((windowMemberships st w).filter
          (fun m => m.clusterId = c.id)).filterMap
            (fun m => windowArticlesById st w startMs m.articleId)).map
          (fun a => publisherName a (windowSourceNameById st w startMs))
          ).dedup.length = _
      exact (List.card_toFinset _).symm
  · by_cases h : (windowClusters st w).length = 0
    · have hnil : windowClusters st w = [] := List.length_eq_zero.mp h
      have hL : rankClusters (windowClusters st w) (windowMemberships st w)
          (windowArticlesById st w startMs) (windowSourceNameById st w startMs)
          (startMs + 86400000 - 21600000) (startMs + 86400000) = [] := by
        rw [rankClusters, hnil]
        rfl
      rw [hL]
      unfold rankClustersForWindowDate
      rw [if_pos h]
      simp
    · unfold rankClustersForWindowDate
      rw [if_neg h]
      refine ⟨?_, ?_, ?_, ?_⟩ <;>
        simp [rankRunWithClusters, TOP_LIMIT, List.length_take]

/-! ### Candidate reorder contract (the admin reorder route)

The route validates the submitted `orderedClusterIds`, loads the window's
candidates ordered by rank with `limit(MAX_REORDER)`, compares the id sets,
and rewrites each matched row's rank to its 1-based submitted position. -/

def MAX_REORDER : Nat := 15

/-- The `/^\d{4}-\d{2}-\d{2}$/` test. -/
def datePatternOk (s : String) : Bool :=
  match s.data with
  | [a, b, c, d, e, f, g, h, i, j] =>
      a.isDigit && b.isDigit && c.isDigit && d.isDigit && e = '-' &&
        f.isDigit && g.isDigit && h = '-' && i.isDigit && j.isDigit
  | _ => false

/-- The window's candidates ordered by rank ascending, limited to
`MAX_REORDER` rows. -/
def topCandidateRows (cands : List CandidateRow) (windowDate : String) :
    List CandidateRow :=
  ((cands.filter (fun r => r.windowDate = windowDate)).insertionSort
    (fun a b => a.rank ≤ b.rank)).take MAX_REORDER

/-- `candidateIdByCluster.get`: the JS `Map` from pairs keeps the last
entry per key. -/
def candIdByCluster (topRows : List CandidateRow) (cid : String) : Option Nat :=
  (topRows.reverse.find? (fun r => r.clusterId = cid)).map (fun r => r.id)

/-- The update loop: for each submitted position, set the matched
candidate row's rank to `index + 1`. -/
def applyReorderGo (topRows : List CandidateRow) :
    List String → Nat → List CandidateRow → List CandidateRow
  | [], _, acc => acc
  | cid :: rest, i, acc =>
      let acc' := match candIdByCluster topRows cid with
        | some candidateId =>
            acc.map (fun r => if r.id = candidateId then { r with rank := i + 1 }
              else r)
        | none => acc
      applyReorderGo topRows rest (i + 1) acc'

/-- The reorder route (`POST`), as a pure function of the candidate table.
Returns the updated table, or the rejection message. -/
def reorderCandidates (cands : List CandidateRow) (windowDate : String)
    (orderedClusterIds : List String) : Except String (List CandidateRow) :=
  if ¬datePatternOk windowDate then
    .error "windowDate must be in YYYY-MM-DD format."
  else if orderedClusterIds.length = 0 then
    .error "orderedClusterIds is required."
  else if orderedClusterIds.length > MAX_REORDER then
    .error "Cannot reorder more than 15 clusters."
  else if (((orderedClusterIds.map jsTrim).filter
      (fun s => s ≠ "")).dedup).length ≠ orderedClusterIds.length then
    .error "orderedClusterIds must be unique."
  else if (topCandidateRows cands windowDate).length = 0 then
    .error "No candidates found for this windowDate."
  else if (topCandidateRows cands windowDate).length ≠ orderedClusterIds.length then
    .error "Expected cluster ids."
  else if ¬(orderedClusterIds.all
        (fun cid => (topCandidateRows cands windowDate).any
          (fun r => r.clusterId = cid)) &&
      (topCandidateRows cands windowDate).all
        (fun r => orderedClusterIds.contains r.clusterId)) then
    .error "orderedClusterIds must match the current top candidates exactly."
  else
    .ok (applyReorderGo (topCandidateRows cands windowDate)
      orderedClusterIds 0 cands)

/-- The candidate table after a reorder call: unchanged on rejection (all
rejections happen before any update is issued). -/
def reorderOutcome (cands : List CandidateRow) (windowDate : String)
    (orderedClusterIds : List String) : List CandidateRow :=
  match reorderCandidates cands windowDate orderedClusterIds with
  | .ok l => l
  | .error _ => cands

theorem applyReorderGo_length (topRows : List CandidateRow) :
    ∀ (ids : List String) (i0 : Nat) (acc : List CandidateRow),
      (applyReorderGo topRows ids i0 acc).length = acc.length := by
  intro ids
  induction ids with
  | nil => intro i0 acc; rfl
  | cons cid rest ih =>
      intro i0 acc
      show (applyReorderGo topRows rest (i0 + 1) _).length = _
      rcases h : candIdByCluster topRows cid with _ | cId
      · simp only [applyReorderGo, h]
        exact ih (i0 + 1) acc
      · simp only [applyReorderGo, h]
        rw [ih (i0 + 1) _]
        simp

/-- One step of the update loop. -/
def reorderStep (topRows : List CandidateRow) (cid : String) (i0 : Nat)
    (acc : List CandidateRow) : List CandidateRow :=
  match candIdByCluster topRows cid with
  | some candidateId =>
      acc.map (fun r => if r.id = candidateId then { r with rank := i0 + 1 } else r)
  | none => acc

theorem applyReorderGo_cons (topRows : List CandidateRow) (cid : String)
    (rest : List String) (i0 : Nat) (acc : List CandidateRow) :
    applyReorderGo topRows (cid :: rest) i0 acc
      = applyReorderGo topRows rest (i0 + 1) (reorderStep topRows cid i0 acc) := rfl

theorem reorderStep_spec (topRows : List CandidateRow) (cid : String) (i0 : Nat)
    (acc : List CandidateRow) :
    List.Forall₂ (fun r r1 =>
      r1.id = r.id ∧ r1.windowDate = r.windowDate ∧ r1.clusterId = r.clusterId ∧
      (candIdByCluster topRows cid = some r.id → r1.rank = i0 + 1) ∧
      (candIdByCluster topRows cid ≠ some r.id → r1.rank = r.rank))
      acc (reorderStep topRows cid i0 acc) := by
  unfold reorderStep
  rcases h : candIdByCluster topRows cid with _ | cId
  · rw [List.forall₂_same]
    intro r _
    exact ⟨rfl, rfl, rfl, fun hc => by simp at hc, fun _ => rfl⟩
  · rw [List.forall₂_map_right_iff, List.forall₂_same]
    intro r _
    by_cases hid : r.id = cId
    · refine ⟨by simp [hid], by simp [hid], by simp [hid],
        fun _ => by simp [hid], ?_⟩
      intro hne
      exact absurd (show some cId = some (r.id) by rw [hid]) hne
    · exact ⟨by simp [hid], by simp [hid], by simp [hid],
        fun hc => absurd (Option.some_inj.mp hc).symm hid,
        fun _ => by simp [hid]⟩

/-- Pointwise effect of the update loop: fields other than rank are
preserved; a row never matched keeps its rank; a row matched at position
`j` (with no later match) ends with rank `i0 + j + 1`. -/
theorem applyReorderGo_spec (topRows : List CandidateRow) :
    ∀ (ids : List String) (i0 : Nat) (acc : List CandidateRow),
      List.Forall₂ (fun r r' =>
        r'.id = r.id ∧ r'.windowDate = r.windowDate ∧ r'.clusterId = r.clusterId ∧
        ((∀ j (hj : j < ids.length),
            candIdByCluster topRows (ids.get ⟨j, hj⟩) ≠ some r.id) →
          r'.rank = r.rank) ∧
        (∀ j (hj : j < ids.length),
          candIdByCluster topRows (ids.get ⟨j, hj⟩) = some r.id →
          (∀ j' (hj' : j' < ids.length), j < j' →
            candIdByCluster topRows (ids.get ⟨j', hj'⟩) ≠ some r.id) →
          r'.rank = i0 + j + 1))
        acc (applyReorderGo topRows ids i0 acc) := by
  intro ids
  induction ids with
  | nil =>
      intro i0 acc
      show List.Forall₂ _ acc acc
      rw [List.forall₂_same]
      intro r _
      exact ⟨rfl, rfl, rfl, fun _ => rfl, fun j hj => by simp at hj⟩
  | cons cid rest ih =>
      intro i0 acc
      rw [applyReorderGo_cons]
      have h1 := reorderStep_spec topRows cid i0 acc
      have h2 := ih (i0 + 1) (reorderStep topRows cid i0 acc)
      rw [List.forall₂_iff_get] at h1 h2 ⊢
      refine ⟨h1.1.trans h2.1, ?_⟩
      intro k hk1 hk2
      have hk' : k < (reorderStep topRows cid i0 acc).length := by omega
      obtain ⟨e1id, e1w, e1c, e1t, e1u⟩ := h1.2 k hk1 hk'
      obtain ⟨e2id, e2w, e2c, e2u, e2t⟩ := h2.2 k hk' hk2
      refine ⟨e2id.trans e1id, e2w.trans e1w, e2c.trans e1c, ?_, ?_⟩
      · intro hnone
        have hcid : candIdByCluster topRows cid ≠ some (acc.get ⟨k, hk1⟩).id := by
          have := hnone 0 (by simp)
          simpa using this
        have hrest : ∀ j (hj : j < rest.length),
            candIdByCluster topRows (rest.get ⟨j, hj⟩)
              ≠ some ((reorderStep topRows cid i0 acc).get ⟨k, hk'⟩).id := by
          intro j hj
          rw [e1id]
          have := hnone (j + 1) (by simpa using Nat.succ_lt_succ hj)
          simpa using this
        rw [e2u hrest, e1u hcid]
      · intro j hj hmatch hlater
        cases j with
        | zero =>
            have hcid : candIdByCluster topRows cid = some (acc.get ⟨k, hk1⟩).id := by
              simpa using hmatch
            have hrest : ∀ j' (hj' : j' < rest.length),
                candIdByCluster topRows (rest.get ⟨j', hj'⟩)
                  ≠ some ((reorderStep topRows cid i0 acc).get ⟨k, hk'⟩).id := by
              intro j' hj'
              rw [e1id]
              have := hlater (j' + 1) (by simpa using Nat.succ_lt_succ hj') (by omega)
              simpa using this
            rw [e2u hrest, e1t hcid]
        | succ j'' =>
            have hj'' : j'' < rest.length := by simpa using Nat.lt_of_succ_lt_succ hj
            have hmatch' : candIdByCluster topRows (rest.get ⟨j'', hj''⟩)
                = some ((reorderStep topRows cid i0 acc).get ⟨k, hk'⟩).id := by
              rw [e1id]
              simpa using hmatch
            have hlater' : ∀ j' (hj' : j' < rest.length), j'' < j' →
                candIdByCluster topRows (rest.get ⟨j', hj'⟩)
                  ≠ some ((reorderStep topRows cid i0 acc).get ⟨k, hk'⟩).id := by
              intro j' hj' hgt
              rw [e1id]
              have := hlater (j' + 1) (by simpa using Nat.succ_lt_succ hj') (by omega)
              simpa using this
            rw [e2t j'' hj'' hmatch' hlater']
            omega

theorem candidateRow_ext {r r' : CandidateRow} (h1 : r'.id = r.id)
    (h2 : r'.windowDate = r.windowDate) (h3 : r'.clusterId = r.clusterId)
    (h4 : r'.rank = r.rank) : r' = r := by
  cases r
  cases r'
  simp_all

theorem filter_ne_eq_of_forall2 {w : String} {l l' : List CandidateRow}
    (h : List.Forall₂ (fun r r' => r'.windowDate = r.windowDate ∧
      (r.windowDate ≠ w → r' = r)) l l') :
    l'.filter (fun r => r.windowDate ≠ w) = l.filter (fun r => r.windowDate ≠ w) := by
  induction h with
  | nil => rfl
  | @cons a b l1 l2 hr hrest ih =>
      simp only [ne_eq, decide_not] at ih
      by_cases hw : a.windowDate = w
      · have hb : b.windowDate = w := hr.1.trans hw
        simp only [List.filter_cons]
        simp [hw, hb, ih]
      · have hb : b = a := hr.2 hw
        subst hb
        simp only [List.filter_cons]
        simp [hw, ih]

/-- Inversion: a successful reorder call returns the update-loop's result on
the window's top rows. -/
theorem reorderCandidates_ok_inv {cands : List CandidateRow} {w : String}
    {ids : List String} {l : List CandidateRow}
    (h : reorderCandidates cands w ids = .ok l) :
    l = applyReorderGo (topCandidateRows cands w) ids 0 cands := by
  unfold reorderCandidates at h
  split_ifs at h
  simp only [Except.ok.injEq] at h
  exact h.symm

/-- Any reorder call with a submitted set different from the stored
top-15-by-rank set is rejected. -/
theorem reorderCandidates_mismatch_rejected (cands : List CandidateRow)
    (w : String) (ids : List String)
    (h : ¬((∀ cid ∈ ids, cid ∈ (topCandidateRows cands w).map
        (fun r => r.clusterId)) ∧
      (∀ cid ∈ (topCandidateRows cands w).map (fun r => r.clusterId),
        cid ∈ ids))) :
    ∃ msg, reorderCandidates cands w ids = .error msg := by
  unfold reorderCandidates
  split_ifs
  all_goals try exact ⟨_, rfl⟩
  · rename_i hset
    exfalso
    apply h
    rw [Bool.and_eq_true, List.all_eq_true, List.all_eq_true] at hset
    constructor
    · intro cid hcid
      have h5 := hset.1 cid hcid
      rw [List.any_eq_true] at h5
      rcases h5 with ⟨r, hr, hrc⟩
      rw [decide_eq_true_eq] at hrc
      exact List.mem_map.mpr ⟨r, hr, hrc⟩
    · intro cid hcid
      rcases List.mem_map.mp hcid with ⟨r, hr, hrc⟩
      have h5 := hset.2 r hr
      have h6 : r.clusterId ∈ ids := by
        simpa using h5
      exact hrc ▸ h6

/--
**C4 (amended)**: a reorder call never changes which cluster identifiers are
referenced and never inserts or deletes candidate rows — for every input,
each row keeps its id, window date and cluster id, and only the rank field
may be rewritten; and a submission whose identifier set differs from the
window's stored top-15-by-rank candidates (the reorder scope, `MAX_REORDER
= 15`) is rejected with the table untouched.  (The original claim's
rejection clause, read against *all* of the window's candidates, fails when
the window stores more than 15 rows — see the counterexample.)
-/
theorem C4_reorder_frame_amended :
    (∀ (cands : List CandidateRow) (w : String) (ids : List String),
      List.Forall₂ (fun r r' => r'.id = r.id ∧ r'.windowDate = r.windowDate ∧
        r'.clusterId = r.clusterId) cands (reorderOutcome cands w ids)) ∧
    (∀ (cands : List CandidateRow) (w : String) (ids : List String),
      ¬((∀ cid ∈ ids, cid ∈ (topCandidateRows cands w).map
          (fun r => r.clusterId)) ∧
        (∀ cid ∈ (topCandidateRows cands w).map (fun r => r.clusterId),
          cid ∈ ids)) →
      (∃ msg, reorderCandidates cands w ids = .error msg) ∧
      reorderOutcome cands w ids = cands) := by
  constructor
  · intro cands w ids
    unfold reorderOutcome
    rcases hres : reorderCandidates cands w ids with msg | l
    · rw [List.forall₂_same]
      intro r _
      exact ⟨rfl, rfl, rfl⟩
    · rw [reorderCandidates_ok_inv hres]
      exact (applyReorderGo_spec (topCandidateRows cands w) ids 0 cands).imp
        (fun r r' hr => ⟨hr.1, hr.2.1, hr.2.2.1⟩)
  · intro cands w ids h
    obtain ⟨msg, hmsg⟩ := reorderCandidates_mismatch_rejected cands w ids h
    refine ⟨⟨msg, hmsg⟩, ?_⟩
    unfold reorderOutcome
    rw [hmsg]

/-- Witness for the amended C4 at a concrete table and submission. -/
theorem C4_witness :
    List.Forall₂ (fun r r' => r'.id = r.id ∧ r'.windowDate = r.windowDate ∧
      r'.clusterId = r.clusterId)
      [(⟨1, "2025-01-01", "ka", 1⟩ : CandidateRow)]
      (reorderOutcome [(⟨1, "2025-01-01", "ka", 1⟩ : CandidateRow)]
        "2025-01-01" ["kb"]) ∧
    ((∃ msg, reorderCandidates [(⟨1, "2025-01-01", "ka", 1⟩ : CandidateRow)]
        "2025-01-01" ["kb"] = .error msg) ∧
      reorderOutcome [(⟨1, "2025-01-01", "ka", 1⟩ : CandidateRow)]
        "2025-01-01" ["kb"] = [(⟨1, "2025-01-01", "ka", 1⟩ : CandidateRow)]) :=
  ⟨C4_reorder_frame_amended.1 _ _ _,
   C4_reorder_frame_amended.2 _ "2025-01-01" ["kb"] (by decide)⟩

/--
**C4 (counterexample)**: with 16 stored candidates for a window, submitting
the top-15 cluster ids (missing the rank-16 identifier, which is present
among the window's RankedCandidates) is *not* rejected, contradicting the
claim that a submission with a missing identifier is always rejected.
-/
theorem C4_counterexample :
    (reorderCandidates
      [⟨1, "2025-01-01", "k01", 1⟩, ⟨2, "2025-01-01", "k02", 2⟩,
       ⟨3, "2025-01-01", "k03", 3⟩, ⟨4, "2025-01-01", "k04", 4⟩,
       ⟨5, "2025-01-01", "k05", 5⟩, ⟨6, "2025-01-01", "k06", 6⟩,
       ⟨7, "2025-01-01", "k07", 7⟩, ⟨8, "2025-01-01", "k08", 8⟩,
       ⟨9, "2025-01-01", "k09", 9⟩, ⟨10, "2025-01-01", "k10", 10⟩,
       ⟨11, "2025-01-01", "k11", 11⟩, ⟨12, "2025-01-01", "k12", 12⟩,
       ⟨13, "2025-01-01", "k13", 13⟩, ⟨14, "2025-01-01", "k14", 14⟩,
       ⟨15, "2025-01-01", "k15", 15⟩, ⟨16, "2025-01-01", "k16", 16⟩]
      "2025-01-01"
      ["k01", "k02", "k03", "k04", "k05", "k06", "k07", "k08", "k09", "k10",
       "k11", "k12", "k13", "k14", "k15"]).isOk = true ∧
    "k16" ∈ ([⟨1, "2025-01-01", "k01", 1⟩, ⟨2, "2025-01-01", "k02", 2⟩,
       ⟨3, "2025-01-01", "k03", 3⟩, ⟨4, "2025-01-01", "k04", 4⟩,
       ⟨5, "2025-01-01", "k05", 5⟩, ⟨6, "2025-01-01", "k06", 6⟩,
       ⟨7, "2025-01-01", "k07", 7⟩, ⟨8, "2025-01-01", "k08", 8⟩,
       ⟨9, "2025-01-01", "k09", 9⟩, ⟨10, "2025-01-01", "k10", 10⟩,
       ⟨11, "2025-01-01", "k11", 11⟩, ⟨12, "2025-01-01", "k12", 12⟩,
       ⟨13, "2025-01-01", "k13", 13⟩, ⟨14, "2025-01-01", "k14", 14⟩,
       ⟨15, "2025-01-01", "k15", 15⟩,
       (⟨16, "2025-01-01", "k16", 16⟩ : CandidateRow)].filter
        (fun r => r.windowDate = "2025-01-01")).map (fun r => r.clusterId) ∧
    "k16" ∉ ["k01", "k02", "k03", "k04", "k05", "k06", "k07", "k08", "k09",
      "k10", "k11", "k12", "k13", "k14", "k15"] := by
  refine ⟨?_, by decide, by decide⟩
  decide

theorem topCandidateRows_eq_of_le (cands : List CandidateRow) (w : String)
    (hle : (cands.filter (fun r => r.windowDate = w)).length ≤ MAX_REORDER) :
    topCandidateRows cands w
      = (cands.filter (fun r => r.windowDate = w)).insertionSort
          (fun a b => a.rank ≤ b.rank) := by
  unfold topCandidateRows
  apply List.take_of_length_le
  rw [List.length_insertionSort]
  exact hle

theorem find_unique_row {rows : List CandidateRow} {cid : String}
    (hnd : (rows.map (fun r => r.clusterId)).Nodup) {r : CandidateRow}
    (hr : r ∈ rows) (hc : r.clusterId = cid) :
    rows.reverse.find? (fun x => x.clusterId = cid) = some r := by
  cases hfind : rows.reverse.find? (fun x => x.clusterId = cid) with
  | none =>
      exfalso
      have := List.find?_eq_none.mp hfind r (List.mem_reverse.mpr hr)
      simp [hc] at this
  | some r2 =>
      have hp := List.find?_some hfind
      have hm : r2 ∈ rows := List.mem_reverse.mp (List.mem_of_find?_eq_some hfind)
      have hc2 : r2.clusterId = cid := by simpa using hp
      have hrr : r2 = r :=
        List.inj_on_of_nodup_map hnd hm hr (by rw [hc2, hc])
      rw [hrr]

theorem candIdByCluster_eq_some {rows : List CandidateRow} {cid : String}
    (hnd : (rows.map (fun r => r.clusterId)).Nodup) {r : CandidateRow}
    (hr : r ∈ rows) (hc : r.clusterId = cid) :
    candIdByCluster rows cid = some r.id := by
  unfold candIdByCluster
  rw [find_unique_row hnd hr hc]
  rfl

theorem candIdByCluster_some_elim {rows : List CandidateRow} {cid : String}
    {n : Nat} (h : candIdByCluster rows cid = some n) :
    ∃ r ∈ rows, r.clusterId = cid ∧ r.id = n := by
  unfold candIdByCluster at h
  rcases Option.map_eq_some'.mp h with ⟨r, hfind, hid⟩
  exact ⟨r, List.mem_reverse.mp (List.mem_of_find?_eq_some hfind),
    by simpa using List.find?_some hfind, hid⟩

/--
**C2 (amended)**: for a window whose stored candidate rows number `N` with
`1 ≤ N ≤ 15` (the route's cap is `MAX_REORDER = 15`, not 30), under the
database invariants that candidate row ids are unique and the window's
cluster identifiers are unique, non-empty and free of surrounding
whitespace: submitting a permutation of exactly the stored `N` identifiers
succeeds, and afterwards each of the window's candidates whose cluster id
sits at position `i` of the submission has rank `i + 1`, with other
windows' rows unchanged; a submission whose size differs from `N`, or
whose identifier set is not exactly the stored set, is rejected.
-/
theorem C2_reorder_permutation_amended
    (cands : List CandidateRow) (w : String) (ids : List String)
    (hdate : datePatternOk w = true)
    (hidNodup : (cands.map (fun r => r.id)).Nodup)
    (hclNodup : ((cands.filter (fun r => r.windowDate = w)).map
      (fun r => r.clusterId)).Nodup)
    (htrim : ∀ cid ∈ (cands.filter (fun r => r.windowDate = w)).map
      (fun r => r.clusterId), jsTrim cid = cid ∧ cid ≠ "")
    (hle : (cands.filter (fun r => r.windowDate = w)).length ≤ MAX_REORDER)
    (hne : (cands.filter (fun r => r.windowDate = w)).length ≠ 0) :
    (ids.Perm ((cands.filter (fun r => r.windowDate = w)).map
        (fun r => r.clusterId)) →
      ∃ cands', reorderCandidates cands w ids = .ok cands' ∧
        (∀ r' ∈ cands', r'.windowDate = w →
          ∀ i (hi : i < ids.length), ids.get ⟨i, hi⟩ = r'.clusterId →
            r'.rank = i + 1) ∧
        cands'.filter (fun r => r.windowDate ≠ w)
          = cands.filter (fun r => r.windowDate ≠ w)) ∧
    (ids.length ≠ (cands.filter (fun r => r.windowDate = w)).length →
      ∃ msg, reorderCandidates cands w ids = .error msg) ∧
    (¬((∀ cid ∈ ids, cid ∈ (cands.filter (fun r => r.windowDate = w)).map
          (fun r => r.clusterId)) ∧
        (∀ cid ∈ (cands.filter (fun r => r.windowDate = w)).map
          (fun r => r.clusterId), cid ∈ ids)) →
      ∃ msg, reorderCandidates cands w ids = .error msg) := by
  have htopeq := topCandidateRows_eq_of_le cands w hle
  have htopperm : (topCandidateRows cands w).Perm
      (cands.filter (fun r => r.windowDate = w)) := by
    rw [htopeq]
    exact List.perm_insertionSort _ _
  have htoplen : (topCandidateRows cands w).length
      = (cands.filter (fun r => r.windowDate = w)).length := htopperm.length_eq
  have htopmapperm : ((topCandidateRows cands w).map (fun r => r.clusterId)).Perm
      ((cands.filter (fun r => r.windowDate = w)).map (fun r => r.clusterId)) :=
    htopperm.map _
  refine ⟨?_, ?_, ?_⟩
  · intro hperm
    have hlen : ids.length = (cands.filter (fun r => r.windowDate = w)).length := by
      rw [hperm.length_eq, List.length_map]
    have htrimid : ∀ cid ∈ ids, jsTrim cid = cid ∧ cid ≠ "" :=
      fun cid hc => htrim cid (hperm.subset hc)
    have hmapid : ids.map jsTrim = ids := by
      have h0 : ids.map jsTrim = ids.map id :=
        List.map_congr_left (fun a ha => (htrimid a ha).1)
      rw [h0, List.map_id]
    have hfilterid : ids.filter (fun s => s ≠ "") = ids :=
      List.filter_eq_self.mpr (fun a ha => by simp [(htrimid a ha).2])
    have hidsnodup : ids.Nodup := hperm.nodup_iff.mpr hclNodup
    have hdedup : (((ids.map jsTrim).filter (fun s => s ≠ "")).dedup).length
        = ids.length := by
      rw [hmapid, hfilterid, List.dedup_eq_self.mpr hidsnodup]
    have htopnodup : ((topCandidateRows cands w).map
        (fun r => r.clusterId)).Nodup := htopmapperm.nodup_iff.mpr hclNodup
    have hsetbool : (ids.all
          (fun cid => (topCandidateRows cands w).any
            (fun r => r.clusterId = cid)) &&
        (topCandidateRows cands w).all
          (fun r => ids.contains r.clusterId)) = true := by
      rw [Bool.and_eq_true, List.all_eq_true, List.all_eq_true]
      constructor
      · intro cid hcid
        rw [List.any_eq_true]
        have hmem : cid ∈ (cands.filter (fun r => r.windowDate = w)).map
            (fun r => r.clusterId) := hperm.subset hcid
        rcases List.mem_map.mp hmem with ⟨r, hr, hrc⟩
        exact ⟨r, htopperm.mem_iff.mpr hr, by simp [hrc]⟩
      · intro r hr
        have hrs : r ∈ cands.filter (fun r => r.windowDate = w) :=
          htopperm.mem_iff.mp hr
        have hmem : r.clusterId ∈ ids :=
          hperm.mem_iff.mpr (List.mem_map.mpr ⟨r, hrs, rfl⟩)
        simpa using hmem
    have hok : reorderCandidates cands w ids
        = .ok (applyReorderGo (topCandidateRows cands w) ids 0 cands) := by
      unfold reorderCandidates
      split_ifs with h1 h2 h3 h4 h5
      · exfalso; omega
      · exfalso
        unfold MAX_REORDER at h2 hle
        omega
      · exact absurd hdedup h3
      · exfalso
        rw [htoplen] at h4
        exact hne h4
      · exfalso
        apply h5
        rw [htoplen, ← hlen]
      · rfl
    refine ⟨applyReorderGo (topCandidateRows cands w) ids 0 cands, hok, ?_, ?_⟩
    · intro r' hr' hrw i hi hgetid
      have hspec := applyReorderGo_spec (topCandidateRows cands w) ids 0 cands
      rcases List.mem_iff_get.mp hr' with ⟨n, hn⟩
      rw [List.forall₂_iff_get] at hspec
      have hk1 : (n : Nat) < cands.length := by
        rw [hspec.1]
        exact n.2
      have hn' : (applyReorderGo (topCandidateRows cands w) ids 0 cands).get
          ⟨n.1, n.2⟩ = r' := hn
      obtain ⟨eid, ew, ec, eu, et⟩ := hspec.2 n.1 hk1 n.2
      rw [hn'] at eid ew ec eu et
      have hrw2 : (cands.get ⟨n.1, hk1⟩).windowDate = w := by
        rw [← ew]
        exact hrw
      have hrmem : cands.get ⟨n.1, hk1⟩ ∈ cands.filter
          (fun r => r.windowDate = w) :=
        List.mem_filter.mpr ⟨List.get_mem _ _ _, by simpa using hrw2⟩
      have hrtop : cands.get ⟨n.1, hk1⟩ ∈ topCandidateRows cands w :=
        htopperm.mem_iff.mpr hrmem
      have hcl : (cands.get ⟨n.1, hk1⟩).clusterId = ids.get ⟨i, hi⟩ :=
        (hgetid.trans ec).symm
      have hfind : candIdByCluster (topCandidateRows cands w) (ids.get ⟨i, hi⟩)
          = some (cands.get ⟨n.1, hk1⟩).id :=
        candIdByCluster_eq_some htopnodup hrtop hcl
      have hlater : ∀ j' (hj' : j' < ids.length), i < j' →
          candIdByCluster (topCandidateRows cands w) (ids.get ⟨j', hj'⟩)
            ≠ some (cands.get ⟨n.1, hk1⟩).id := by
        intro j' hj' hgt hcontra
        rcases candIdByCluster_some_elim hcontra with ⟨r3, hr3top, hr3c, hr3id⟩
        have hr3stored : r3 ∈ cands.filter (fun r => r.windowDate = w) :=
          htopperm.mem_iff.mp hr3top
        have hr3cands : r3 ∈ cands := (List.mem_filter.mp hr3stored).1
        have hrcands : cands.get ⟨n.1, hk1⟩ ∈ cands := List.get_mem _ _ _
        have hr3r : r3 = cands.get ⟨n.1, hk1⟩ :=
          List.inj_on_of_nodup_map hidNodup hr3cands hrcands hr3id
        have h9 : ids.get ⟨i, hi⟩ = ids.get ⟨j', hj'⟩ := by
          rw [← hcl, ← hr3r]
          exact hr3c
        have h10 := (List.Nodup.get_inj_iff hidsnodup).mp h9
        have h11 : i = j' := by simpa using h10
        omega
      have hrank := et i hi hfind hlater
      rw [hrank]
      omega
    · apply filter_ne_eq_of_forall2
      have hspec := applyReorderGo_spec (topCandidateRows cands w) ids 0 cands
      rw [List.forall₂_iff_get] at hspec ⊢
      refine ⟨hspec.1, ?_⟩
      intro k hk1 hk2
      obtain ⟨eid, ew, ec, eu, et⟩ := hspec.2 k hk1 hk2
      refine ⟨ew, ?_⟩
      intro hwne
      apply candidateRow_ext eid ew ec
      apply eu
      intro j hj hcontra
      rcases candIdByCluster_some_elim hcontra with ⟨r3, hr3top, hr3c, hr3id⟩
      have hr3stored : r3 ∈ cands.filter (fun r => r.windowDate = w) :=
        htopperm.mem_iff.mp hr3top
      have hr3cands : r3 ∈ cands := (List.mem_filter.mp hr3stored).1
      have hrcands : cands.get ⟨k, hk1⟩ ∈ cands := List.get_mem _ _ _
      have hr3r : r3 = cands.get ⟨k, hk1⟩ :=
        List.inj_on_of_nodup_map hidNodup hr3cands hrcands hr3id
      have hw2 : (cands.get ⟨k, hk1⟩).windowDate = w := by
        rw [← hr3r]
        simpa using (List.mem_filter.mp hr3stored).2
      exact hwne hw2
  · intro hlenne
    cases hres : reorderCandidates cands w ids with
    | error msg => exact ⟨msg, rfl⟩
    | ok l =>
        exfalso
        unfold reorderCandidates at hres
        split_ifs at hres with h1 h2 h3 h4 h5 h6
        apply hlenne
        have h5' : (topCandidateRows cands w).length = ids.length :=
          not_ne_iff.mp h5
        rw [← h5']
        exact htoplen
  · intro hsetne
    apply reorderCandidates_mismatch_rejected
    rintro ⟨hA, hB⟩
    apply hsetne
    constructor
    · intro cid hcid
      exact htopmapperm.mem_iff.mp (hA cid hcid)
    · intro cid hcid
      exact hB cid (htopmapperm.mem_iff.mpr hcid)

/--
**C2 (counterexample)**: a window storing 16 candidates (`N = 16 ≤ 30`)
rejects the submission of a permutation of exactly the stored 16
identifiers — the route caps reorders at `MAX_REORDER = 15`, not 30.
-/
theorem C2_counterexample :
    reorderCandidates
      [⟨1, "2025-01-02", "m01", 1⟩, ⟨2, "2025-01-02", "m02", 2⟩,
       ⟨3, "2025-01-02", "m03", 3⟩, ⟨4, "2025-01-02", "m04", 4⟩,
       ⟨5, "2025-01-02", "m05", 5⟩, ⟨6, "2025-01-02", "m06", 6⟩,
       ⟨7, "2025-01-02", "m07", 7⟩, ⟨8, "2025-01-02", "m08", 8⟩,
       ⟨9, "2025-01-02", "m09", 9⟩, ⟨10, "2025-01-02", "m10", 10⟩,
       ⟨11, "2025-01-02", "m11", 11⟩, ⟨12, "2025-01-02", "m12", 12⟩,
       ⟨13, "2025-01-02", "m13", 13⟩, ⟨14, "2025-01-02", "m14", 14⟩,
       ⟨15, "2025-01-02", "m15", 15⟩, ⟨16, "2025-01-02", "m16", 16⟩]
      "2025-01-02"
      ["m16", "m15", "m14", "m13", "m12", "m11", "m10", "m09", "m08", "m07",
       "m06", "m05", "m04", "m03", "m02", "m01"]
      = .error "Cannot reorder more than 15 clusters." ∧
    (["m16", "m15", "m14", "m13", "m12", "m11", "m10", "m09", "m08", "m07",
       "m06", "m05", "m04", "m03", "m02", "m01"] : List String).Perm
      (([⟨1, "2025-01-02", "m01", 1⟩, ⟨2, "2025-01-02", "m02", 2⟩,
       ⟨3, "2025-01-02", "m03", 3⟩, ⟨4, "2025-01-02", "m04", 4⟩,
       ⟨5, "2025-01-02", "m05", 5⟩, ⟨6, "2025-01-02", "m06", 6⟩,
       ⟨7, "2025-01-02", "m07", 7⟩, ⟨8, "2025-01-02", "m08", 8⟩,
       ⟨9, "2025-01-02", "m09", 9⟩, ⟨10, "2025-01-02", "m10", 10⟩,
       ⟨11, "2025-01-02", "m11", 11⟩, ⟨12, "2025-01-02", "m12", 12⟩,
       ⟨13, "2025-01-02", "m13", 13⟩, ⟨14, "2025-01-02", "m14", 14⟩,
       ⟨15, "2025-01-02", "m15", 15⟩,
       (⟨16, "2025-01-02", "m16", 16⟩ : CandidateRow)].filter
        (fun r => r.windowDate = "2025-01-02")).map (fun r => r.clusterId)) :=
  ⟨rfl, by decide⟩

/-- Witness for the amended C2: a two-candidate window reordered by the
reversed permutation. -/
theorem C2_witness :
    ∃ cands', reorderCandidates
        [(⟨1, "2025-01-01", "ka", 1⟩ : CandidateRow),
         (⟨2, "2025-01-01", "kb", 2⟩ : CandidateRow)]
        "2025-01-01" ["kb", "ka"] = .ok cands' ∧
      (∀ r' ∈ cands', r'.windowDate = "2025-01-01" →
        ∀ i (hi : i < (["kb", "ka"] : List String).length),
          (["kb", "ka"] : List String).get ⟨i, hi⟩ = r'.clusterId →
            r'.rank = i + 1) ∧
      cands'.filter (fun r => r.windowDate ≠ "2025-01-01")
        = ([(⟨1, "2025-01-01", "ka", 1⟩ : CandidateRow),
            (⟨2, "2025-01-01", "kb", 2⟩ : CandidateRow)].filter
            (fun r => r.windowDate ≠ "2025-01-01")) :=
  (C2_reorder_permutation_amended
    [(⟨1, "2025-01-01", "ka", 1⟩ : CandidateRow),
     (⟨2, "2025-01-01", "kb", 2⟩ : CandidateRow)]
    "2025-01-01" ["kb", "ka"]
    (by decide) (by decide) (by decide) (by decide) (by decide)
    (by decide)).1 (by decide)

structure RepArticleRow where
  id : String
  title : String
  publisher : Option String
  snippet : Option String
  url : String
  published_at : Option String
  source_id : Option String
deriving DecidableEq, Repr

structure RepresentativeArticle where
  title : String
  publisher : String
  snippet : Option String
  url : String
  published_at : Option String
deriving DecidableEq, Repr

/-- `clampMax` from the representative selector: 6 when the input is not a
finite number (`none`), otherwise `min(6, max(3, floor(value)))`. -/
def clampMax : Option Int → Nat
  | none => 6
  | some v => (min 6 (max 3 v)).toNat

/-- Lexicographic comparison of character lists — `localeCompare < 0` for
the ISO-8601 timestamp strings compared by the selector. -/
def charListLt : List Char → List Char → Bool
  | [], [] => false
  | [], _ :: _ => true
  | _ :: _, [] => false
  | a :: as, b :: bs =>
      if a < b then true else if b < a then false else charListLt as bs

def strLt (s t : String) : Bool := charListLt s.data t.data

/-- `sortByRecencyDesc(a, b) <= 0`: articles without a timestamp sort last,
otherwise newer (lexicographically larger) timestamps sort first. -/
def recencyLE (a b : RepArticleRow) : Bool :=
  match a.published_at, b.published_at with
  | none, none => true
  | none, some _ => false
  | some _, none => true
  | some x, some y => !strLt x y

def repPublisherFromSource (a : RepArticleRow)
    (sourceNameById : String → Option String) : String :=
  match a.source_id with
  | some sid =>
      if sid ≠ "" then
        match (sourceNameById sid).map jsTrim with
        | some n => if n ≠ "" then n else "Unknown Publisher"
        | none => "Unknown Publisher"
      else "Unknown Publisher"
  | none => "Unknown Publisher"

/-- `publisherName` from the representative selector. -/
def repPublisherName (a : RepArticleRow)
    (sourceNameById : String → Option String) : String :=
  match a.publisher.map jsTrim with
  | some p => if p ≠ "" then p else repPublisherFromSource a sourceNameById
  | none => repPublisherFromSource a sourceNameById

/-- The `sourceNameById` map: last write wins, as for a JS `Map`. -/
def repSourceNameById (feedSources : List (String × String)) :
    String → Option String :=
  fun sid => (feedSources.reverse.find? (fun s => s.1 = sid)).map (fun s => s.2)

def repPubOf (feedSources : List (String × String)) :
    RepArticleRow → String :=
  fun a => repPublisherName a (repSourceNameById feedSources)

/-- The deduplicated member article ids of the cluster. -/
def repArticleIds (clusterId : String)
    (memberships : List (String × String)) : List String :=
  ((memberships.filter (fun m => m.1 = clusterId)).map (fun m => m.2)).dedup

/-- The fetched member articles (`.in("id", articleIds)`). -/
def repFetched (clusterId : String) (memberships : List (String × String))
    (articles : List RepArticleRow) : List RepArticleRow :=
  articles.filter (fun a => (repArticleIds clusterId memberships).contains a.id)

/-- Pass 1: walk the recency-sorted list, skip already-seen publishers,
stop as soon as `limit` articles are selected. -/
def pass1 (pubOf : RepArticleRow → String) (limit : Nat) :
    List RepArticleRow → List RepArticleRow → List RepArticleRow
  | [], sel => sel
  | a :: rest, sel =>
      if (sel.map pubOf).contains (pubOf a) then pass1 pubOf limit rest sel
      else if limit ≤ sel.length + 1 then sel ++ [a]
      else pass1 pubOf limit rest (sel ++ [a])

/-- Pass 2: fill remaining slots by recency, skipping already-selected ids. -/
def pass2 (limit : Nat) :
    List RepArticleRow → List RepArticleRow → List RepArticleRow
  | [], sel => sel
  | a :: rest, sel =>
      if (sel.map (fun x => x.id)).contains a.id then pass2 limit rest sel
      else if limit ≤ sel.length + 1 then sel ++ [a]
      else pass2 limit rest (sel ++ [a])

/-- `getRepresentativeArticles` as a pure function of the three tables. -/
def getRepresentativeArticles (clusterId : String) (mx : Option Int)
    (memberships : List (String × String)) (articles : List RepArticleRow)
    (feedSources : List (String × String)) : List RepresentativeArticle :=
  if (repArticleIds clusterId memberships).length = 0 then []
  else
    (if (pass1 (repPubOf feedSources) (clampMax mx)
          ((repFetched clusterId memberships articles).insertionSort
            (fun a b => recencyLE a b = true)) []).length < clampMax mx then
      pass2 (clampMax mx)
        ((repFetched clusterId memberships articles).insertionSort
          (fun a b => recencyLE a b = true))
        (pass1 (repPubOf feedSources) (clampMax mx)
          ((repFetched clusterId memberships articles).insertionSort
            (fun a b => recencyLE a b = true)) [])
    else
      pass1 (repPubOf feedSources) (clampMax mx)
        ((repFetched clusterId memberships articles).insertionSort
          (fun a b => recencyLE a b = true)) []).map
      (fun a => ⟨a.title, repPubOf feedSources a, a.snippet, a.url,
        a.published_at⟩)

theorem clampMax_bounds (m : Option Int) : 3 ≤ clampMax m ∧ clampMax m ≤ 6 := by
  cases m with
  | none => exact ⟨by decide, by decide⟩
  | some v =>
      simp only [clampMax]
      constructor <;> omega

theorem pass1_length_le (pubOf : RepArticleRow → String) (limit : Nat) :
    ∀ (l sel : List RepArticleRow), sel.length < limit →
      (pass1 pubOf limit l sel).length ≤ limit := by
  intro l
  induction l with
  | nil =>
      intro sel h
      exact Nat.le_of_lt h
  | cons a rest ih =>
      intro sel h
      simp only [pass1]
      split_ifs with h1 h2
      · exact ih sel h
      · simp only [List.length_append, List.length_singleton]
        omega
      · refine ih (sel ++ [a]) ?_
        simp only [List.length_append, List.length_singleton]
        omega

theorem pass2_length_le (limit : Nat) :
    ∀ (l sel : List RepArticleRow), sel.length < limit →
      (pass2 limit l sel).length ≤ limit := by
  intro l
  induction l with
  | nil =>
      intro sel h
      exact Nat.le_of_lt h
  | cons a rest ih =>
      intro sel h
      simp only [pass2]
      split_ifs with h1 h2
      · exact ih sel h
      · simp only [List.length_append, List.length_singleton]
        omega
      · refine ih (sel ++ [a]) ?_
        simp only [List.length_append, List.length_singleton]
        omega

theorem pass1_spec (pubOf : RepArticleRow → String) (limit : Nat) :
    ∀ (l sel : List RepArticleRow),
      (sel.map pubOf).Nodup → sel.length < limit →
      ((pass1 pubOf limit l sel).map pubOf).Nodup ∧
      (∀ p ∈ sel.map pubOf, p ∈ (pass1 pubOf limit l sel).map pubOf) ∧
      ((pass1 pubOf limit l sel).length = limit ∨
        ((pass1 pubOf limit l sel).length < limit ∧
          ∀ p ∈ l.map pubOf, p ∈ (pass1 pubOf limit l sel).map pubOf)) := by
  intro l
  induction l with
  | nil =>
      intro sel hnd hlt
      refine ⟨hnd, fun p hp => hp, Or.inr ⟨hlt, ?_⟩⟩
      intro p hp
      simp at hp
  | cons a rest ih =>
      intro sel hnd hlt
      simp only [pass1]
      split_ifs with h1 h2
      · obtain ⟨N, Cov, D⟩ := ih sel hnd hlt
        refine ⟨N, Cov, ?_⟩
        rcases D with hl | ⟨hlen, hcov⟩
        · exact Or.inl hl
        · refine Or.inr ⟨hlen, ?_⟩
          intro p hp
          rcases (show p = pubOf a ∨ ∃ x ∈ rest, pubOf x = p by simpa using hp)
            with hpa | ⟨x, hx, hxp⟩
          · have hmem : pubOf a ∈ sel.map pubOf := by simpa using h1
            exact hpa ▸ Cov _ hmem
          · exact hcov p (List.mem_map.mpr ⟨x, hx, hxp⟩)
      · have hna : pubOf a ∉ sel.map pubOf := by simpa using h1
        have hN : ((sel ++ [a]).map pubOf).Nodup := by
          rw [List.map_append]
          refine List.Nodup.append hnd (List.nodup_singleton _) ?_
          intro x hx hx2
          simp only [List.map_cons, List.map_nil, List.mem_singleton] at hx2
          exact hna (hx2 ▸ hx)
        refine ⟨hN, ?_, Or.inl ?_⟩
        · intro p hp
          rw [List.map_append]
          exact List.mem_append_left _ hp
        · simp only [List.length_append, List.length_singleton]
          omega
      · have hna : pubOf a ∉ sel.map pubOf := by simpa using h1
        have hN : ((sel ++ [a]).map pubOf).Nodup := by
          rw [List.map_append]
          refine List.Nodup.append hnd (List.nodup_singleton _) ?_
          intro x hx hx2
          simp only [List.map_cons, List.map_nil, List.mem_singleton] at hx2
          exact hna (hx2 ▸ hx)
        have hlt' : (sel ++ [a]).length < limit := by
          simp only [List.length_append, List.length_singleton]
          omega
        obtain ⟨N, Cov, D⟩ := ih (sel ++ [a]) hN hlt'
        refine ⟨N, ?_, ?_⟩
        · intro p hp
          refine Cov p ?_
          rw [List.map_append]
          exact List.mem_append_left _ hp
        · rcases D with hl | ⟨hlen, hcov⟩
          · exact Or.inl hl
          · refine Or.inr ⟨hlen, ?_⟩
            intro p hp
            rcases (show p = pubOf a ∨ ∃ x ∈ rest, pubOf x = p by simpa using hp)
              with hpa | ⟨x, hx, hxp⟩
            · refine hpa ▸ Cov _ ?_
              rw [List.map_append]
              refine List.mem_append_right _ ?_
              simp
            · exact hcov p (List.mem_map.mpr ⟨x, hx, hxp⟩)

theorem rep_diversity_core (pubOf : RepArticleRow → String) (limit : Nat)
    (S : List RepArticleRow) (h1 : 1 ≤ limit)
    (hdiv : limit ≤ ((S.map pubOf).dedup).length) :
    (pass1 pubOf limit S []).length = limit ∧
    ((pass1 pubOf limit S []).map pubOf).Nodup := by
  obtain ⟨N, Cov, D⟩ := pass1_spec pubOf limit S [] (by simp) (by simpa using h1)
  rcases D with hl | ⟨hlen, hcov⟩
  · exact ⟨hl, N⟩
  · exfalso
    have hsub : (S.map pubOf).toFinset
        ⊆ ((pass1 pubOf limit S []).map pubOf).toFinset := by
      intro p hp
      rw [List.mem_toFinset] at hp ⊢
      exact hcov p hp
    have h4 := Finset.card_le_card hsub
    rw [List.card_toFinset, List.card_toFinset] at h4
    have h5 : ((pass1 pubOf limit S []).map pubOf).dedup.length
        ≤ ((pass1 pubOf limit S []).map pubOf).length :=
      List.Sublist.length_le (List.dedup_sublist _)
    rw [List.length_map] at h5
    omega

/--
**C8**: `getRepresentativeArticles` returns at most `k` articles, where `k`
is 6 when the requested maximum is not a finite number and otherwise its
floor clamped into `[3, 6]` (so `max = 10` yields 6 and `max = 1` yields 3);
and whenever the cluster's fetched members resolve to at least `k` distinct
publisher names, the returned list has exactly `k` articles with pairwise
distinct publishers.
-/
theorem C8_representative_clamp_diversity :
    (∀ (clusterId : String) (mx : Option Int)
        (memberships : List (String × String)) (articles : List RepArticleRow)
        (feedSources : List (String × String)),
      (getRepresentativeArticles clusterId mx memberships articles
        feedSources).length ≤ clampMax mx) ∧
    (clampMax none = 6 ∧ clampMax (some 10) = 6 ∧ clampMax (some 1) = 3) ∧
    (∀ (clusterId : String) (mx : Option Int)
        (memberships : List (String × String)) (articles : List RepArticleRow)
        (feedSources : List (String × String)),
      clampMax mx ≤ (((repFetched clusterId memberships articles).map
        (repPubOf feedSources)).dedup).length →
      (getRepresentativeArticles clusterId mx memberships articles
          feedSources).length = clampMax mx ∧
      ((getRepresentativeArticles clusterId mx memberships articles
          feedSources).map (fun r => r.publisher)).Nodup) := by
  refine ⟨?_, ⟨by decide, by decide, by decide⟩, ?_⟩
  · intro cid mx mem arts fs
    have h3 := (clampMax_bounds mx).1
    unfold getRepresentativeArticles
    split_ifs with h0 hlt
    · simp
    · rw [List.length_map]
      exact pass2_length_le _ _ _ hlt
    · rw [List.length_map]
      refine pass1_length_le _ _ _ _ ?_
      simp only [List.length_nil]
      omega
  · intro cid mx mem arts fs hdiv
    have h3 := (clampMax_bounds mx).1
    have hperm : ((repFetched cid mem arts).insertionSort
        (fun a b => recencyLE a b = true)).Perm (repFetched cid mem arts) :=
      List.perm_insertionSort _ _
    have hpermmap := hperm.map (repPubOf fs)
    have hS : (((repFetched cid mem arts).insertionSort
          (fun a b => recencyLE a b = true)).map (repPubOf fs)).dedup.length
        = ((repFetched cid mem arts).map (repPubOf fs)).dedup.length :=
      (hpermmap.dedup).length_eq
    have hcore := rep_diversity_core (repPubOf fs) (clampMax mx)
      ((repFetched cid mem arts).insertionSort (fun a b => recencyLE a b = true))
      (by omega) (by rw [hS]; exact hdiv)
    have hne0 : ¬((repArticleIds cid mem).length = 0) := by
      intro h0
      have hids : repArticleIds cid mem = [] := List.length_eq_zero.mp h0
      have hF : repFetched cid mem arts = [] := by
        unfold repFetched
        rw [hids]
        simp
      rw [hF] at hdiv
      simp at hdiv
      omega
    unfold getRepresentativeArticles
    rw [if_neg hne0, if_neg (show ¬(pass1 (repPubOf fs) (clampMax mx)
        ((repFetched cid mem arts).insertionSort
          (fun a b => recencyLE a b = true)) []).length < clampMax mx by
      omega)]
    constructor
    · rw [List.length_map]
      exact hcore.1
    · rw [List.map_map]
      have hcomp : ((fun r : RepresentativeArticle => r.publisher) ∘
          (fun a : RepArticleRow => ⟨a.title, repPubOf fs a, a.snippet, a.url,
            a.published_at⟩)) = repPubOf fs := rfl
      rw [hcomp]
      exact hcore.2

/-- Witness for C8: a three-member cluster with three distinct publishers
and `max = 1` (clamped to 3). -/
theorem C8_witness :
    clampMax (some 1)
      ≤ (((repFetched "c" [("c", "a1"), ("c", "a2"), ("c", "a3")]
          [⟨"a1", "T1", some "P1", none, "u1", some "2025-01-03", none⟩,
           ⟨"a2", "T2", some "P2", none, "u2", some "2025-01-02", none⟩,
           ⟨"a3", "T3", some "P3", none, "u3", some "2025-01-01", none⟩]).map
          (repPubOf [])).dedup).length ∧
    ((getRepresentativeArticles "c" (some 1)
        [("c", "a1"), ("c", "a2"), ("c", "a3")]
        [⟨"a1", "T1", some "P1", none, "u1", some "2025-01-03", none⟩,
         ⟨"a2", "T2", some "P2", none, "u2", some "2025-01-02", none⟩,
         ⟨"a3", "T3", some "P3", none, "u3", some "2025-01-01", none⟩]
        []).length = clampMax (some 1) ∧
      ((getRepresentativeArticles "c" (some 1)
        [("c", "a1"), ("c", "a2"), ("c", "a3")]
        [⟨"a1", "T1", some "P1", none, "u1", some "2025-01-03", none⟩,
         ⟨"a2", "T2", some "P2", none, "u2", some "2025-01-02", none⟩,
         ⟨"a3", "T3", some "P3", none, "u3", some "2025-01-01", none⟩]
        []).map (fun r => r.publisher)).Nodup) :=
  ⟨by decide, C8_representative_clamp_diversity.2.2 "c" (some 1)
    [("c", "a1"), ("c", "a2"), ("c", "a3")]
    [⟨"a1", "T1", some "P1", none, "u1", some "2025-01-03", none⟩,
     ⟨"a2", "T2", some "P2", none, "u2", some "2025-01-02", none⟩,
     ⟨"a3", "T3", some "P3", none, "u3", some "2025-01-01", none⟩]
    [] (by decide)⟩

/-- `chooseClusterLabel`: the member whose vector is most similar to the
cluster's `vectorSum` (strict improvement over a running best starting at
−1, so ties keep the earliest member), defaulting to the first member's
title. -/
def chooseClusterLabel (cluster : WorkingCluster) : String :=
  (cluster.members.foldl
    (fun acc m =>
      if acc.2 < simQ m.vector cluster.vectorSum
      then (m.title, simQ m.vector cluster.vectorSum)
      else acc)
    (match cluster.members with
     | [] => "Untitled cluster"
     | m :: _ => m.title,
     (-1 : ℚ))).1

structure WinStoryClusterRow where
  id : Nat
  windowDate : String
  label : String
  category : Option String
  score : Nat
deriving DecidableEq, Repr

structure WinMembershipRow where
  clusterId : Nat
  articleId : String
deriving DecidableEq, Repr

structure WinArticleRow where
  id : String
  title : String
  snippet : Option String
  published_at : Option String
deriving DecidableEq, Repr

structure ClusterDbState where
  storyClusters : List WinStoryClusterRow
  clusterArticles : List WinMembershipRow
  articles : List WinArticleRow
deriving DecidableEq, Repr

/-- `ClusterResult` returned by `clusterArticlesForWindowDate`. -/
structure ClusterRunResult where
  windowDate : String
  replace : Bool
  replacedClusters : Nat
  articlesConsidered : Nat
  clustersCreated : Nat
  avgClusterSize : ℚ
  largestClusters : List (String × Nat)
deriving DecidableEq, Repr

/-- `.gte("published_at", start).lt("published_at", end)`: the row's
timestamp is within the half-open window (rows without one are excluded). -/
def inWindow (bounds : String × String) (a : WinArticleRow) : Bool :=
  match a.published_at with
  | none => false
  | some p => (!strLt p bounds.1) && strLt p bounds.2

/-- `.order("published_at", { ascending: false })`. -/
def pubDescLE (a b : WinArticleRow) : Bool :=
  match a.published_at, b.published_at with
  | none, none => true
  | none, some _ => false
  | some _, none => true
  | some x, some y => !strLt x y

/-- `Number(x.toFixed(2))`. -/
def round2 (q : ℚ) : ℚ := (round (q * 100) : ℤ) / 100

/--
`clusterArticlesForWindowDate` as a state transition on the three tables.
`bounds` is the `(start, end)` pair the route computes with
`toWindowBoundsUtc(windowDate)`; `nextId` seeds the database-generated ids
of inserted cluster rows.  Returns the `ClusterResult` and the new state.
-/
def clusterRunForWindow (windowDate : String) (bounds : String × String)
    (replace : Bool) (nextId : Nat) (st : ClusterDbState) :
    ClusterRunResult × ClusterDbState :=
  let replacedClusterCount := if replace then
      (st.storyClusters.filter (fun c => c.windowDate = windowDate)).length
    else 0
  let st1 := if replace then
      { st with storyClusters :=
          st.storyClusters.filter (fun c => ¬(c.windowDate = windowDate)) }
    else st
  let articles := ((st1.articles.filter (inWindow bounds)).insertionSort
      (fun a b => pubDescLE a b = true)).map (fun a =>
      (⟨a.id, a.title, a.snippet, a.published_at,
        toVector (normalizeText a.title a.snippet)⟩ : ClusterArticle))
  if articles.length = 0 then
    (⟨windowDate, replace, replacedClusterCount, 0, 0, 0, []⟩, st1)
  else
    let wcs := buildWorkingClusters articles
    let newClusters := wcs.enum.map (fun p =>
        (⟨nextId + 1 + p.1, windowDate, chooseClusterLabel p.2, none,
          p.2.members.length⟩ : WinStoryClusterRow))
    let membershipRows := wcs.enum.flatMap (fun p =>
        p.2.members.map (fun m =>
          (⟨nextId + 1 + p.1, m.id⟩ : WinMembershipRow)))
    let clusterSizes := (wcs.map (fun c =>
        (chooseClusterLabel c, c.members.length))).insertionSort
        (fun a b => b.2 ≤ a.2)
    (⟨windowDate, replace, replacedClusterCount, articles.length, wcs.length,
        round2 ((articles.length : ℚ) / (wcs.length : ℚ)),
        clusterSizes.take 5⟩,
      { st1 with
        storyClusters := st1.storyClusters ++ newClusters,
        clusterArticles := st1.clusterArticles ++ membershipRows })

/--
**C9**: calling the clusterer with `replace = true` on a window with zero
in-bounds articles still deletes every previously stored StoryCluster for
that window (the delete precedes the article read and is unconditional),
and returns `articlesConsidered = 0`, `clustersCreated = 0`,
`avgClusterSize = 0`, an empty `largestClusters` list, and
`replacedClusters` equal to the number of clusters deleted; the article
and membership tables are untouched.
-/
theorem C9_replace_empty_window (windowDate : String) (bounds : String × String)
    (nextId : Nat) (st : ClusterDbState)
    (hempty : st.articles.filter (inWindow bounds) = []) :
    (clusterRunForWindow windowDate bounds true nextId st).1.replacedClusters
      = (st.storyClusters.filter (fun c => c.windowDate = windowDate)).length ∧
    (clusterRunForWindow windowDate bounds true nextId st).1.articlesConsidered
      = 0 ∧
    (clusterRunForWindow windowDate bounds true nextId st).1.clustersCreated
      = 0 ∧
    (clusterRunForWindow windowDate bounds true nextId st).1.avgClusterSize
      = 0 ∧
    (clusterRunForWindow windowDate bounds true nextId st).1.largestClusters
      = [] ∧
    (clusterRunForWindow windowDate bounds true nextId st).2.storyClusters
      = st.storyClusters.filter (fun c => ¬(c.windowDate = windowDate)) ∧
    ((clusterRunForWindow windowDate bounds true nextId st).2.storyClusters.filter
      (fun c => c.windowDate = windowDate)) = [] ∧
    (clusterRunForWindow windowDate bounds true nextId st).2.articles
      = st.articles ∧
    (clusterRunForWindow windowDate bounds true nextId st).2.clusterArticles
      = st.clusterArticles := by
  have hrun : clusterRunForWindow windowDate bounds true nextId st
      = (⟨windowDate, true,
          (st.storyClusters.filter
            (fun c => c.windowDate = windowDate)).length, 0, 0, 0, []⟩,
         { st with storyClusters := (st.storyClusters.filter (fun c => ¬(c.windowDate = windowDate))) }) := by
    unfold clusterRunForWindow
    simp [hempty]
  rw [hrun]
  refine ⟨rfl, rfl, rfl, rfl, rfl, rfl, ?_, rfl, rfl⟩
  rw [List.filter_eq_nil_iff]
  intro a ha
  have h2 := (List.mem_filter.mp ha).2
  simp at h2 ⊢
  exact h2

/-- Witness for C9: a window holding one prior cluster (with one
membership row) and a single article published outside the bounds. -/
theorem C9_witness :
    (clusterRunForWindow "2025-01-01"
        ("2025-01-01T00:00:00.000Z", "2025-01-02T00:00:00.000Z") true 0
        (⟨[⟨7, "2025-01-01", "Old", none, 2⟩], [⟨7, "x1"⟩],
          [⟨"x1", "T", none, some "2025-03-01T00:00:00.000Z"⟩]⟩ :
          ClusterDbState)).1.replacedClusters
      = (([⟨7, "2025-01-01", "Old", none, 2⟩] :
          List WinStoryClusterRow).filter
          (fun c => c.windowDate = "2025-01-01")).length ∧
    (clusterRunForWindow "2025-01-01"
        ("2025-01-01T00:00:00.000Z", "2025-01-02T00:00:00.000Z") true 0
        (⟨[⟨7, "2025-01-01", "Old", none, 2⟩], [⟨7, "x1"⟩],
          [⟨"x1", "T", none, some "2025-03-01T00:00:00.000Z"⟩]⟩ :
          ClusterDbState)).1.articlesConsidered = 0 ∧
    (clusterRunForWindow "2025-01-01"
        ("2025-01-01T00:00:00.000Z", "2025-01-02T00:00:00.000Z") true 0
        (⟨[⟨7, "2025-01-01", "Old", none, 2⟩], [⟨7, "x1"⟩],
          [⟨"x1", "T", none, some "2025-03-01T00:00:00.000Z"⟩]⟩ :
          ClusterDbState)).1.clustersCreated = 0 ∧
    (clusterRunForWindow "2025-01-01"
        ("2025-01-01T00:00:00.000Z", "2025-01-02T00:00:00.000Z") true 0
        (⟨[⟨7, "2025-01-01", "Old", none, 2⟩], [⟨7, "x1"⟩],
          [⟨"x1", "T", none, some "2025-03-01T00:00:00.000Z"⟩]⟩ :
          ClusterDbState)).1.avgClusterSize = 0 ∧
    (clusterRunForWindow "2025-01-01"
        ("2025-01-01T00:00:00.000Z", "2025-01-02T00:00:00.000Z") true 0
        (⟨[⟨7, "2025-01-01", "Old", none, 2⟩], [⟨7, "x1"⟩],
          [⟨"x1", "T", none, some "2025-03-01T00:00:00.000Z"⟩]⟩ :
          ClusterDbState)).1.largestClusters = [] ∧
    (clusterRunForWindow "2025-01-01"
        ("2025-01-01T00:00:00.000Z", "2025-01-02T00:00:00.000Z") true 0
        (⟨[⟨7, "2025-01-01", "Old", none, 2⟩], [⟨7, "x1"⟩],
          [⟨"x1", "T", none, some "2025-03-01T00:00:00.000Z"⟩]⟩ :
          ClusterDbState)).2.storyClusters
      = ([⟨7, "2025-01-01", "Old", none, 2⟩] :
          List WinStoryClusterRow).filter
          (fun c => ¬(c.windowDate = "2025-01-01")) ∧
    ((clusterRunForWindow "2025-01-01"
        ("2025-01-01T00:00:00.000Z", "2025-01-02T00:00:00.000Z") true 0
        (⟨[⟨7, "2025-01-01", "Old", none, 2⟩], [⟨7, "x1"⟩],
          [⟨"x1", "T", none, some "2025-03-01T00:00:00.000Z"⟩]⟩ :
          ClusterDbState)).2.storyClusters.filter
          (fun c => c.windowDate = "2025-01-01")) = [] ∧
    (clusterRunForWindow "2025-01-01"
        ("2025-01-01T00:00:00.000Z", "2025-01-02T00:00:00.000Z") true 0
        (⟨[⟨7, "2025-01-01", "Old", none, 2⟩], [⟨7, "x1"⟩],
          [⟨"x1", "T", none, some "2025-03-01T00:00:00.000Z"⟩]⟩ :
          ClusterDbState)).2.articles
      = [⟨"x1", "T", none, some "2025-03-01T00:00:00.000Z"⟩] ∧
    (clusterRunForWindow "2025-01-01"
        ("2025-01-01T00:00:00.000Z", "2025-01-02T00:00:00.000Z") true 0
        (⟨[⟨7, "2025-01-01", "Old", none, 2⟩], [⟨7, "x1"⟩],
          [⟨"x1", "T", none, some "2025-03-01T00:00:00.000Z"⟩]⟩ :
          ClusterDbState)).2.clusterArticles = [⟨7, "x1"⟩] :=
  C9_replace_empty_window "2025-01-01"
    ("2025-01-01T00:00:00.000Z", "2025-01-02T00:00:00.000Z") 0
    (⟨[⟨7, "2025-01-01", "Old", none, 2⟩], [⟨7, "x1"⟩],
      [⟨"x1", "T", none, some "2025-03-01T00:00:00.000Z"⟩]⟩ : ClusterDbState)
    (by decide)

end Yesterday
